import Mathlib

/-!
Verification of the registers-cli core against its specification.

The Python source is shallowly embedded: byte strings become `List Nat`
(each element a byte value), Python `str` becomes Lean `String`, dictionaries
become association lists, and raised exceptions become `Except` errors.
-/

deriving instance DecidableEq for Except

namespace Registers

/-- Byte strings are lists of byte values. -/
abbrev Bytes := List Nat

/-! ## SHA-256 (model of Python's `hashlib.sha256`) -/

/-- Truncation to a 32-bit word. -/
def u32 (n : Nat) : Nat := n % 4294967296

/-- 32-bit right rotation. -/
def rotr (n x : Nat) : Nat := ((x >>> n) ||| (x <<< (32 - n))) % 4294967296

/-- SHA-256 Ch function. -/
def ch32 (x y z : Nat) : Nat := (x &&& y) ^^^ ((x ^^^ 4294967295) &&& z)

/-- SHA-256 Maj function. -/
def maj32 (x y z : Nat) : Nat := (x &&& y) ^^^ (x &&& z) ^^^ (y &&& z)

/-- SHA-256 big sigma 0. -/
def bsig0 (x : Nat) : Nat := rotr 2 x ^^^ rotr 13 x ^^^ rotr 22 x

/-- SHA-256 big sigma 1. -/
def bsig1 (x : Nat) : Nat := rotr 6 x ^^^ rotr 11 x ^^^ rotr 25 x

/-- SHA-256 small sigma 0. -/
def ssig0 (x : Nat) : Nat := rotr 7 x ^^^ rotr 18 x ^^^ (x >>> 3)

/-- SHA-256 small sigma 1. -/
def ssig1 (x : Nat) : Nat := rotr 17 x ^^^ rotr 19 x ^^^ (x >>> 10)

/-- The SHA-256 round constants. -/
def sha256K : List Nat :=
  [1116352408, 1899447441, 3049323471, 3921009573,
   961987163, 1508970993, 2453635748, 2870763221,
   3624381080, 310598401, 607225278, 1426881987,
   1925078388, 2162078206, 2614888103, 3248222580,
   3835390401, 4022224774, 264347078, 604807628,
   770255983, 1249150122, 1555081692, 1996064986,
   2554220882, 2821834349, 2952996808, 3210313671,
   3336571891, 3584528711, 113926993, 338241895,
   666307205, 773529912, 1294757372, 1396182291,
   1695183700, 1986661051, 2177026350, 2456956037,
   2730485921, 2820302411, 3259730800, 3345764771,
   3516065817, 3600352804, 4094571909, 275423344,
   430227734, 506948616, 659060556, 883997877,
   958139571, 1322822218, 1537002063, 1747873779,
   1955562222, 2024104815, 2227730452, 2361852424,
   2428436474, 2756734187, 3204031479, 3329325298]

/-- The SHA-256 initial state. -/
def sha256H0 : List Nat :=
  [1779033703, 3144134277, 1013904242, 2773480762,
   1359893119, 2600822924, 528734635, 1541459225]

/-- Extends a 16-word message schedule by the given number of extra words. -/
def extendSchedule : List Nat → Nat → List Nat
  | ws, 0 => ws
  | ws, Nat.succ k =>
      let i := ws.length
      let w := u32 (ws.getD (i - 16) 0 + ssig0 (ws.getD (i - 15) 0) +
                    ws.getD (i - 7) 0 + ssig1 (ws.getD (i - 2) 0))
      extendSchedule (ws ++ [w]) k

/-- One SHA-256 compression round; `kw` is the round constant plus the
schedule word. -/
def compressStep (st : List Nat) (kw : Nat) : List Nat :=
  match st with
  | [a, b, c, d, e, f, g, h] =>
      let t1 := u32 (h + bsig1 e + ch32 e f g + kw)
      let t2 := u32 (bsig0 a + maj32 a b c)
      [u32 (t1 + t2), a, b, c, u32 (d + t1), e, f, g]
  | other => other

/-- Compresses one 16-word block into the state. -/
def compressBlock (h : List Nat) (block : List Nat) : List Nat :=
  let ws := extendSchedule block 48
  let st := (List.zip sha256K ws).foldl
    (fun st p => compressStep st (u32 (p.1 + p.2))) h
  (List.zip h st).map (fun p => u32 (p.1 + p.2))

/-- Big-endian byte rendering of `n` on `k` bytes. -/
def beBytes : Nat → Nat → Bytes
  | 0, _ => []
  | Nat.succ k, n => beBytes k (n / 256) ++ [n % 256]

/-- Groups a byte string into big-endian 32-bit words. -/
def bytesToWords : Bytes → List Nat
  | b0 :: b1 :: b2 :: b3 :: rest =>
      (((b0 * 256 + b1) * 256 + b2) * 256 + b3) :: bytesToWords rest
  | _ => []

/-- Splits a byte string into 64-byte chunks, with enough fuel to consume
the whole string (each step drops at least one byte). -/
def chunks64Fuel : Nat → Bytes → List Bytes
  | _, [] => []
  | 0, l => [l]
  | Nat.succ fuel, l => l.take 64 :: chunks64Fuel fuel (l.drop 64)

/-- Splits a byte string into 64-byte chunks. -/
def chunks64 (l : Bytes) : List Bytes := chunks64Fuel l.length l

/-- SHA-256 padding: a `0x80` byte, zeros, and the 64-bit bit length. -/
def sha256Pad (msg : Bytes) : Bytes :=
  let L := msg.length
  msg ++ 128 :: List.replicate ((119 - L % 64) % 64) 0 ++ beBytes 8 (8 * L)

/-- The SHA-256 digest (32 bytes) of a byte string. -/
def sha256 (msg : Bytes) : Bytes :=
  let final := (chunks64 (sha256Pad msg)).foldl
    (fun h b => compressBlock h (bytesToWords b)) sha256H0
  final.foldr (fun w acc => beBytes 4 w ++ acc) []

/-! ## Hex rendering and UTF-8 -/

/-- The lowercase hex digit for a value below 16. -/
def hexDigitChar (n : Nat) : Char :=
  if n < 10 then Char.ofNat (48 + n) else Char.ofNat (87 + n)

/-- Two lowercase hex digits for a byte. -/
def byteHex (b : Nat) : List Char := [hexDigitChar (b / 16), hexDigitChar (b % 16)]

/-- Lowercase hex string of a byte string (Python's `bytes.hex`). -/
def bytesToHex (bs : Bytes) : String :=
  ⟨bs.foldr (fun b acc => byteHex b ++ acc) []⟩

/-- UTF-8 encoding of one unicode scalar value. -/
def utf8Char (c : Char) : Bytes :=
  let n := c.toNat
  if n < 128 then [n]
  else if n < 2048 then [192 + n / 64, 128 + n % 64]
  else if n < 65536 then [224 + n / 4096, 128 + (n / 64) % 64, 128 + n % 64]
  else [240 + n / 262144, 128 + (n / 4096) % 64, 128 + (n / 64) % 64, 128 + n % 64]

/-- UTF-8 encoding of a string (Python's `str.encode('utf-8')`). -/
def utf8 (s : String) : Bytes := s.data.foldr (fun c acc => utf8Char c ++ acc) []

/-- SHA-256 hex digest of the UTF-8 encoding of a string: the composite
`sha256(s.encode('utf-8')).hexdigest()`. -/
def sha256HexUtf8 (s : String) : String := bytesToHex (sha256 (utf8 s))

example : bytesToHex (sha256 []) =
    "e3b0c44298fc1c149afbf4c8996fb92427ae41e4649b934ca495991b7852b855" := by
  decide

/-! ## Canonical JSON (model of `json.dumps(..., sort_keys, separators, ensure_ascii=False)`) -/

/-- The double-quote character. -/
def dqChar : Char := Char.ofNat 34

/-- The backslash character. -/
def bsChar : Char := Char.ofNat 92

/-- The opening-brace character. -/
def lbraceChar : Char := Char.ofNat 123

/-- The closing-brace character. -/
def rbraceChar : Char := Char.ofNat 125

/-- JSON escaping of a single character as CPython's `json.dumps` does with
`ensure_ascii=False`: it escapes the double quote, the backslash and control
characters below 0x20 (with the short forms for backspace, tab, newline,
form feed and carriage return), and leaves everything else, including
non-ASCII, literal. -/
def escapeChar (c : Char) : List Char :=
  if c = dqChar then [bsChar, dqChar]
  else if c = bsChar then [bsChar, bsChar]
  else if c.toNat = 8 then [bsChar, 'b']
  else if c.toNat = 9 then [bsChar, 't']
  else if c.toNat = 10 then [bsChar, 'n']
  else if c.toNat = 12 then [bsChar, 'f']
  else if c.toNat = 13 then [bsChar, 'r']
  else if c.toNat < 32 then
    [bsChar, 'u', '0', '0', hexDigitChar (c.toNat / 16), hexDigitChar (c.toNat % 16)]
  else [c]

/-- A JSON string literal: quote, escaped characters, quote. -/
def jsonQuote (s : String) : List Char :=
  dqChar :: s.data.foldr (fun c acc => escapeChar c ++ acc) [dqChar]

/-- Joins chunks with a separator character. -/
def sepJoin (sep : Char) : List (List Char) → List Char
  | [] => []
  | [x] => x
  | x :: xs => x ++ sep :: sepJoin sep xs

/-- Python string comparison on character lists: lexicographic by code point. -/
def charListLt : List Char → List Char → Bool
  | [], [] => false
  | [], _ :: _ => true
  | _ :: _, [] => false
  | a :: as, b :: bs =>
      if a.toNat < b.toNat then true
      else if b.toNat < a.toNat then false
      else charListLt as bs

/-- Python `str` less-than. -/
def pyStrLt (a b : String) : Bool := charListLt a.data b.data

/-- A blob value: a string or a list of strings (spec §3, "each value is
either a string or an ordered sequence of strings"). -/
inductive BValue where
  | s (v : String)
  | l (vs : List String)
deriving DecidableEq

/-- A blob: an ordered mapping of attribute name to value
(`Blob._data`, a Python dict in insertion order). -/
structure Blob where
  data : List (String × BValue)
deriving DecidableEq

/-- Stable insertion into a key-sorted pair list (Python `sorted` is stable). -/
def insertSortedPair (p : String × BValue) :
    List (String × BValue) → List (String × BValue)
  | [] => [p]
  | q :: qs =>
      if pyStrLt p.1 q.1 then p :: q :: qs else q :: insertSortedPair p qs

/-- Sorts pairs by key as `sorted(self._data.items())` does. -/
def pySortPairs : List (String × BValue) → List (String × BValue)
  | [] => []
  | p :: ps => insertSortedPair p (pySortPairs ps)

/-- Renders a blob value: a JSON string or a JSON array of strings, with
separators `,` and `:` and no spaces. -/
def renderBVal : BValue → List Char
  | .s v => jsonQuote v
  | .l vs => '[' :: sepJoin ',' (vs.map jsonQuote) ++ [']']

/-- `Blob.to_json` (src/registers/blob.py): canonical JSON with keys sorted,
separators `(',', ':')` and `ensure_ascii=False`. -/
def Blob.toJson (b : Blob) : String :=
  ⟨lbraceChar ::
    sepJoin ',' ((pySortPairs b.data).map fun p => jsonQuote p.1 ++ ':' :: renderBVal p.2)
    ++ [rbraceChar]⟩

/-- `Blob.digest` (src/registers/blob.py): returns the bare SHA-256 hex
digest string `sha256(self.to_json().encode('utf-8')).hexdigest()` — a
Python `str`, not a `Hash` value. -/
def Blob.digest (b : Blob) : String := sha256HexUtf8 b.toJson

/-- `Blob.get`: the value for a key, if present (first match). -/
def Blob.get (b : Blob) (key : String) : Option BValue :=
  (b.data.find? (fun p => p.1 = key)).map Prod.snd

/-! ## Hash, Entry, Merkle tree -/

/-- `Hash` (src/registers/hash.py): an `(algorithm, hex-digest)` pair. -/
structure Hash where
  algorithm : String
  digest : String
deriving DecidableEq

/-- `Hash.__repr__`: `"{alg}:{digest}"`. -/
def Hash.toStr (h : Hash) : String := h.algorithm ++ ":" ++ h.digest

/-- `Scope` (src/registers/entry.py). -/
inductive Scope where
  | user
  | system
deriving DecidableEq

/-- `Scope.value`. -/
def Scope.value : Scope → String
  | .user => "user"
  | .system => "system"

/-- `Entry` (src/registers/entry.py): key, scope, timestamp, blob hash and
an optional position assigned on insertion. -/
structure Entry where
  key : String
  scope : Scope
  timestamp : String
  blob_hash : Hash
  position : Option Nat := none
deriving DecidableEq

/-- Python `str` of the optional position (`str(None)` is `"None"`). -/
def pyStrOfPos : Option Nat → String
  | none => "None"
  | some n => Nat.repr n

/-- `Entry.to_json` (src/registers/entry.py): the entry JSON representation
`[{"index-entry-number":…,"entry-number":…,"entry-timestamp":…,"key":…,
"item-hash":[…]}]` with separators `(',', ':')` and `ensure_ascii=False`,
keys in insertion order. -/
def Entry.toJson (e : Entry) : String :=
  let p := jsonQuote (pyStrOfPos e.position)
  ⟨'[' :: lbraceChar ::
    sepJoin ','
      [jsonQuote "index-entry-number" ++ ':' :: p,
       jsonQuote "entry-number" ++ ':' :: p,
       jsonQuote "entry-timestamp" ++ ':' :: jsonQuote e.timestamp,
       jsonQuote "key" ++ ':' :: jsonQuote e.key,
       jsonQuote "item-hash" ++ ':' :: '[' :: jsonQuote e.blob_hash.toStr ++ [']']]
    ++ [rbraceChar, ']']⟩

/-- Modelled from the spec: `Entry.bytes` is called by `Log.byte_entries`
(src/registers/log.py) and by the merkle tests but is not defined under
src/. Spec §4.1: "Entry canonical bytes (for Merkle leaves) = the JSON
representation documented in §6 wire format, encoded UTF-8." -/
def Entry.bytes (e : Entry) : Bytes := utf8 e.toJson

/-- `hash_leaf` (src/registers/merkle.py): SHA-256 over the `0x00` tag and
the leaf. -/
def hashLeaf (leaf : Bytes) : Bytes := sha256 (0 :: leaf)

/-- `hash_node` (src/registers/merkle.py): SHA-256 over the `0x01` tag and
the two children. -/
def hashNode (left right : Bytes) : Bytes := sha256 (1 :: (left ++ right))

/-- `hash_empty` (src/registers/merkle.py): SHA-256 of the empty string. -/
def hashEmpty : Bytes := sha256 []

/-- Hashes adjacent pairs, `zip(level[0::2], level[1::2])`: a trailing
unpaired element contributes nothing here. -/
def pairUp : List Bytes → List Bytes
  | a :: b :: rest => hashNode a b :: pairUp rest
  | _ => []

/-- `build_level` (src/registers/merkle.py): hash adjacent pairs and promote
a trailing orphan unchanged. -/
def buildLevel (level : List Bytes) : List Bytes :=
  if level = [] then [hashEmpty]
  else if level.length = 1 then level
  else pairUp level ++ (if level.length % 2 = 1 then [level.getLastD []] else [])

/-- The `while` loop of `build_levels`: keeps appending levels until the
last one is a singleton.  The fuel bounds the number of iterations; each
iteration at least halves the current level, so any fuel at or above the
current level's length suffices. -/
def buildLevelsFrom : Nat → List (List Bytes) → List Bytes → List (List Bytes)
  | 0, acc, _ => acc
  | Nat.succ fuel, acc, cur =>
      let nxt := buildLevel cur
      if nxt.length = 1 then acc ++ [nxt]
      else buildLevelsFrom fuel (acc ++ [nxt]) nxt

/-- `build_levels` (src/registers/merkle.py). -/
def buildLevels (leaves : List Bytes) : List (List Bytes) :=
  let level0 := leaves.map hashLeaf
  if leaves = [] then [[hashEmpty]]
  else if leaves.length = 1 then [level0]
  else buildLevelsFrom leaves.length [level0] level0

/-- `Tree(leaves).root_hash` (src/registers/merkle.py): the single node of
the last level, `self._levels[-1][0]`. -/
def treeRootHash (leaves : List Bytes) : Bytes :=
  ((buildLevels leaves).getLastD []).getD 0 []

/-! ## Log and collector (src/registers/log.py) -/

/-- A Python dictionary key as used for the blob pools: `add-item` and
`Log.insert` key blobs by `Blob.digest()`, a `str`, while `append-entry`
looks up `entry.blob_hash`, a `Hash` object.  In CPython a `str` key and a
`Hash` key never compare equal in a dict lookup: their `hash()` values
differ (`Hash.__hash__` is `int(digest, 16)`, a `str` hash is unrelated),
so the buckets never match. -/
inductive PyKey where
  | str (s : String)
  | hsh (h : Hash)
deriving DecidableEq

/-- Key equality as the CPython dict sees it (see `PyKey`). -/
def PyKey.beq : PyKey → PyKey → Bool
  | .str a, .str b => a = b
  | .hsh a, .hsh b => a = b
  | _, _ => false

instance : BEq PyKey := ⟨PyKey.beq⟩

/-- Python dict assignment `d[k] = v`: replaces the value of an existing
key in place, otherwise appends. -/
def dictSet {ν : Type} (d : List (PyKey × ν)) (k : PyKey) (v : ν) :
    List (PyKey × ν) :=
  match d with
  | [] => [(k, v)]
  | (k0, v0) :: rest =>
      if k0 == k then (k0, v) :: rest else (k0, v0) :: dictSet rest k v

/-- Python dict lookup `d.get(k)`. -/
def dictGet {ν : Type} (d : List (PyKey × ν)) (k : PyKey) : Option ν :=
  match d with
  | [] => none
  | (k0, v0) :: rest => if k0 == k then some v0 else dictGet rest k

/-- String-keyed dict assignment (for record snapshots). -/
def sdictSet {ν : Type} (d : List (String × ν)) (k : String) (v : ν) :
    List (String × ν) :=
  match d with
  | [] => [(k, v)]
  | (k0, v0) :: rest =>
      if k0 = k then (k0, v) :: rest else (k0, v0) :: sdictSet rest k v

/-- String-keyed dict lookup. -/
def sdictGet {ν : Type} (d : List (String × ν)) (k : String) : Option ν :=
  match d with
  | [] => none
  | (k0, v0) :: rest => if k0 = k then some v0 else sdictGet rest k

/-- A record: the pairing `(entry, blob)` (src/registers/record.py). -/
structure Record where
  entry : Entry
  blob : Blob
deriving DecidableEq

/-- The errors arising during collection.  `orphanEntry`,
`inconsistentLog` and `duplicatedEntry` mirror the exception classes in
src/registers/exceptions.py; `keyError` and `attributeError` model the
built-in exceptions CPython raises when the code touches the mismatched
blob-pool keys (see `PyKey` and `Record.make`). -/
inductive CollectErr where
  | orphanEntry (e : Entry)
  | inconsistentLog (expected actual : Hash) (size : Nat)
  | duplicatedEntry (key : String) (blob : Blob)
  | keyError
  | attributeError
deriving DecidableEq

/-- `Record.__init__` (src/registers/record.py) evaluates
`entry.blob_hash != blob.digest()`.  `blob.digest()` is a `str`, so CPython
falls back to the reflected `Hash.__eq__`, which reads `other.digest` on a
`str` and raises `AttributeError`. -/
def Record.make (_e : Entry) (_b : Blob) : Except CollectErr Record :=
  .error .attributeError

/-- `Log` (src/registers/log.py): entries, blob map, cached size and cached
Merkle root (`self._digest`, raw bytes). -/
structure Log where
  entries : List Entry
  blobs : List (PyKey × Blob)
  size : Nat
  rootBytes : Bytes
deriving DecidableEq

/-- `Log.byte_entries`. -/
def Log.byteEntries (log : Log) : List Bytes := log.entries.map Entry.bytes

/-- `Log.__init__`: stores the entries and blobs, caches the size and the
Merkle root of the byte entries. -/
def Log.init (entries : List Entry) (blobs : List (PyKey × Blob)) : Log :=
  { entries, blobs, size := entries.length,
    rootBytes := treeRootHash (entries.map Entry.bytes) }

/-- `Log()` with no arguments. -/
def Log.empty : Log := Log.init [] []

/-- `Log.digest`: `Hash("sha-256", self._digest.hex())`. -/
def Log.digest (log : Log) : Hash := ⟨"sha-256", bytesToHex log.rootBytes⟩

/-- `Log.insert` on an `Entry`: bump the size, set the entry position,
append, and recompute the Merkle root. -/
def Log.insertEntry (log : Log) (e : Entry) : Log :=
  let size := log.size + 1
  let e := { e with position := some size }
  let entries := log.entries ++ [e]
  { log with entries, size, rootBytes := treeRootHash (entries.map Entry.bytes) }

/-- `Log.insert` on a `Blob`: `self._blobs[obj.digest()] = obj`, keyed by
the `str` digest. -/
def Log.insertBlob (log : Log) (b : Blob) : Log :=
  { log with blobs := dictSet log.blobs (PyKey.str b.digest) b }

/-- `Log.snapshot` with no size argument: walks the entries and pairs each
with its blob, keeping the latest record per key.  The blob lookup
`self._blobs[entry.blob_hash]` uses a `Hash` key against the `str`-keyed
blob map (a `KeyError` when absent), and `Record` construction itself
raises (see `Record.make`). -/
def Log.snapshotE (log : Log) : Except CollectErr (List (String × Record)) :=
  log.entries.foldlM
    (fun recs e =>
      match dictGet log.blobs (PyKey.hsh e.blob_hash) with
      | none => .error .keyError
      | some b => (Record.make e b).map (fun r => sdictSet recs e.key r))
    []

/-- An RSF command as the tagged variant of spec §9: the source's
`Command` (src/registers/rsf/core.py) carries an `Action` and a
dynamically-typed value. -/
inductive Command where
  | addItem (b : Blob)
  | appendEntry (e : Entry)
  | assertRootHash (h : Hash)
deriving DecidableEq

/-- The collector state: the two logs, the shared blob pool local to
`collect`, and the accumulated (duplicate) errors. -/
structure CollectState where
  data : Log
  metadata : Log
  pool : List (PyKey × Blob)
  errors : List CollectErr
deriving DecidableEq

/-- `_collect_entry` (src/registers/log.py): when a latest record for the
key exists, the code compares `record.blob.digest() == entry.blob_hash` —
a `str` against a `Hash`, which raises `AttributeError` inside the
reflected `Hash.__eq__`; with no record the entry passes. -/
def collectEntry (e : Entry) (record? : Option Record) :
    Except CollectErr (Option Entry × Option CollectErr) :=
  match record? with
  | some _ => .error .attributeError
  | none => .ok (some e, none)

/-- One iteration of the `collect` loop (src/registers/log.py, lines
154-188). -/
def collectStep (relaxed : Bool) (st : CollectState) (cmd : Command) :
    Except CollectErr CollectState := do
  match cmd with
  | .assertRootHash digest =>
      if digest ≠ st.data.digest then
        .error (.inconsistentLog digest st.data.digest st.data.size)
      else
        .ok st
  | .addItem b =>
      .ok { st with pool := dictSet st.pool (PyKey.str b.digest) b }
  | .appendEntry e =>
      match dictGet st.pool (PyKey.hsh e.blob_hash) with
      | none => .error (.orphanEntry e)
      | some blob =>
          if e.scope = Scope.system then do
            let metadata := st.metadata.insertBlob blob
            let snap ← metadata.snapshotE
            let record := sdictGet snap e.key
            let (_, err) ← collectEntry e record
            match err with
            | some err2 =>
                if ¬relaxed then
                  .ok { st with metadata, errors := st.errors ++ [err2] }
                else
                  .ok { st with metadata := metadata.insertEntry e }
            | none =>
                .ok { st with metadata := metadata.insertEntry e }
          else do
            let data := st.data.insertBlob blob
            let snap ← data.snapshotE
            let record := sdictGet snap e.key
            let (_, err) ← collectEntry e record
            match err with
            | some err2 =>
                if ¬relaxed then
                  .ok { st with data, errors := st.errors ++ [err2] }
                else
                  .ok { st with data := data.insertEntry e }
            | none =>
                .ok { st with data := data.insertEntry e }

/-- `{**data.blobs, **metadata.blobs}`. -/
def mergeDicts (a b : List (PyKey × Blob)) : List (PyKey × Blob) :=
  b.foldl (fun d p => dictSet d p.1 p.2) a

/-- `collect` (src/registers/log.py): folds the commands over the two logs
and the shared pool, aborting on a raised exception. -/
def collect (cmds : List Command) (log? metalog? : Option Log := none)
    (relaxed : Bool := false) : Except CollectErr CollectState :=
  let data := log?.getD Log.empty
  let metadata := metalog?.getD Log.empty
  cmds.foldlM (collectStep relaxed)
    { data, metadata, pool := mergeDicts data.blobs metadata.blobs, errors := [] }

/-! ## Register loading (src/registers/register.py) -/

/-- `Log.find`: the latest record for a key, via a snapshot. -/
def Log.findE (log : Log) (key : String) : Except CollectErr (Option Record) :=
  log.snapshotE.map (fun snap => sdictGet snap key)

/-- A register: the two logs, the archived commands, the uid (the value of
the latest `name` metadata record) and the update date. -/
structure Register where
  log : Log
  metalog : Log
  commands : List Command
  uid : Option BValue
  updateDate : Option String
deriving DecidableEq

/-- `Register._collect_update_date`. -/
def updateDateOf (data metadata : Log) : Option String :=
  if data.entries ≠ [] then (data.entries.getLast?).map Entry.timestamp
  else if metadata.entries ≠ [] then (metadata.entries.getLast?).map Entry.timestamp
  else none

/-- `Register.__init__` with a command list: `_load_commands` runs the
collector and `_collect_basic_metadata` extracts the uid from the latest
`name` metadata record.  An empty command list leaves the fresh register
untouched. -/
def Register.load (cmds : List Command) : Except CollectErr Register :=
  if cmds = [] then
    .ok { log := Log.empty, metalog := Log.empty, commands := [],
          uid := none, updateDate := none }
  else do
    let res ← collect cmds
    let name? ← res.metadata.findE "name"
    let uid := name?.bind (fun r => r.blob.get "name")
    .ok { log := res.data, metalog := res.metadata, commands := cmds,
          uid, updateDate := updateDateOf res.data res.metadata }

/-! ## Python string helpers for the RSF codec -/

/-- The characters Python's `str.splitlines` treats as line boundaries. -/
def isLineBoundary (c : Char) : Bool :=
  c.toNat = 10 || c.toNat = 11 || c.toNat = 12 || c.toNat = 13 ||
  c.toNat = 28 || c.toNat = 29 || c.toNat = 30 || c.toNat = 133 ||
  c.toNat = 8232 || c.toNat = 8233

/-- Python `str.splitlines`: splits on the line-boundary characters, with
`\r\n` consumed as one boundary, and no trailing empty line. -/
def splitlinesAux : List Char → List Char → List String
  | [], cur => if cur.isEmpty then [] else [⟨cur.reverse⟩]
  | '\r' :: '\n' :: rest, cur => ⟨cur.reverse⟩ :: splitlinesAux rest []
  | c :: rest, cur =>
      if isLineBoundary c then ⟨cur.reverse⟩ :: splitlinesAux rest []
      else splitlinesAux rest (c :: cur)

/-- Python `str.splitlines`. -/
def pySplitlines (s : String) : List String := splitlinesAux s.data []

/-- The characters Python's `str.strip` removes. -/
def pyIsSpace (c : Char) : Bool :=
  (9 ≤ c.toNat && c.toNat ≤ 13) || (28 ≤ c.toNat && c.toNat ≤ 32) ||
  c.toNat = 133 || c.toNat = 160 || c.toNat = 5760 ||
  (8192 ≤ c.toNat && c.toNat ≤ 8202) || c.toNat = 8232 || c.toNat = 8233 ||
  c.toNat = 8239 || c.toNat = 8287 || c.toNat = 12288

/-- Python `str.strip()`: removes whitespace from both ends. -/
def pyStrip (s : String) : String :=
  ⟨((s.data.dropWhile pyIsSpace).reverse.dropWhile pyIsSpace).reverse⟩

/-- Python `str.split(sep, 1)` where it succeeds in producing two parts:
the text before the first separator and the rest.  `None` when the
separator does not occur (where the source's 2-tuple unpacking raises
`ValueError`). -/
def splitFirstTab : List Char → Option (List Char × List Char)
  | [] => none
  | c :: rest =>
      if c = '\t' then some ([], rest)
      else (splitFirstTab rest).map (fun p => (c :: p.1, p.2))

/-- Python `str.split(sep)` on a single character separator: the list of
(possibly empty) segments. -/
def splitOnChar (sep : Char) : List Char → List (List Char)
  | [] => [[]]
  | c :: rest =>
      match splitOnChar sep rest with
      | [] => [[]]
      | seg :: segs => if c = sep then [] :: seg :: segs else (c :: seg) :: segs

/-! ## RSF codec (src/registers/rsf) -/

/-- The RSF parse errors (src/registers/rsf/exceptions.py), each carrying
the offending line. -/
inductive ParseErr where
  | unknownCommand (line : String)
  | addItemBad (line : String)
  | appendEntryBad (line : String)
  | assertRootHashBad (line : String)
deriving DecidableEq

/-- `Command.__repr__` (src/registers/rsf/core.py): the wire form of a
command, tab-joined.  The entry rendering uses scope, key, timestamp and
blob hash only (not the position). -/
def reprCommand : Command → String
  | .addItem b => "add-item" ++ "\t" ++ b.toJson
  | .appendEntry e =>
      "append-entry" ++ "\t" ++ e.scope.value ++ "\t" ++ e.key ++ "\t" ++
        e.timestamp ++ "\t" ++ e.blob_hash.toStr
  | .assertRootHash h => "assert-root-hash" ++ "\t" ++ h.toStr

/-- `rsf.dump` (src/registers/rsf/__init__.py): commands joined by newline
with a trailing newline. -/
def dump (cmds : List Command) : String :=
  ⟨sepJoin '\n' (cmds.map (fun c => (reprCommand c).data)) ++ ['\n']⟩

/-- A hexadecimal digit value (JSON accepts both cases). -/
def hexVal (c : Char) : Option Nat :=
  if '0' ≤ c && c ≤ '9' then some (c.toNat - 48)
  else if 'a' ≤ c && c ≤ 'f' then some (c.toNat - 87)
  else if 'A' ≤ c && c ≤ 'F' then some (c.toNat - 55)
  else none

/-- The single-character JSON escapes. -/
def unescapeChar (c : Char) : Option Char :=
  if c = dqChar then some dqChar
  else if c = bsChar then some bsChar
  else if c = '/' then some '/'
  else if c = 'b' then some (Char.ofNat 8)
  else if c = 'f' then some (Char.ofNat 12)
  else if c = 'n' then some '\n'
  else if c = 'r' then some (Char.ofNat 13)
  else if c = 't' then some '\t'
  else none

/-- Parses the body of a JSON string literal (after the opening quote) up
to and including the closing quote, handling escapes; raw control
characters are rejected as `json.loads` does in strict mode. -/
def parseJStringBody : List Char → Option (List Char × List Char)
  | [] => none
  | c :: rest =>
      if c = dqChar then some ([], rest)
      else if c = bsChar then
        match rest with
        | [] => none
        | e :: rest2 =>
            if e = 'u' then
              match rest2 with
              | h1 :: h2 :: h3 :: h4 :: rest3 =>
                  match hexVal h1, hexVal h2, hexVal h3, hexVal h4 with
                  | some v1, some v2, some v3, some v4 =>
                      (parseJStringBody rest3).map
                        (fun p => (Char.ofNat (((v1 * 16 + v2) * 16 + v3) * 16 + v4) :: p.1, p.2))
                  | _, _, _, _ => none
              | _ => none
            else
              match unescapeChar e with
              | some ec => (parseJStringBody rest2).map (fun p => (ec :: p.1, p.2))
              | none => none
      else if c.toNat < 32 then none
      else (parseJStringBody rest).map (fun p => (c :: p.1, p.2))

/-- Parses a JSON string literal including its opening quote. -/
def parseJStr : List Char → Option (String × List Char)
  | [] => none
  | c :: rest =>
      if c = dqChar then (parseJStringBody rest).map (fun p => (⟨p.1⟩, p.2))
      else none

/-- Parses the comma-separated items of a JSON array of strings, after the
opening bracket, up to and including the closing bracket.  The fuel bounds
the number of items; each item consumes at least one character. -/
def parseJArrayItems : Nat → List Char → Option (List String × List Char)
  | 0, _ => none
  | Nat.succ fuel, s => do
      let (v, rest) ← parseJStr s
      match rest with
      | ',' :: rest2 =>
          (parseJArrayItems fuel rest2).map (fun p => (v :: p.1, p.2))
      | ']' :: rest2 => some ([v], rest2)
      | _ => none

/-- Parses a blob value: a JSON string or an array of strings. -/
def parseBVal (fuel : Nat) : List Char → Option (BValue × List Char)
  | '[' :: rest =>
      match rest with
      | ']' :: rest2 => some (.l [], rest2)
      | _ => (parseJArrayItems fuel rest).map (fun p => (.l p.1, p.2))
  | s => (parseJStr s).map (fun p => (.s p.1, p.2))

/-- Parses the comma-separated members of a JSON object whose values are
blob values, after the opening brace, up to and including the closing
brace.  The fuel bounds the number of members. -/
def parseJObjItems : Nat → List Char → Option (List (String × BValue) × List Char)
  | 0, _ => none
  | Nat.succ fuel, s => do
      let (k, rest) ← parseJStr s
      match rest with
      | ':' :: rest2 => do
          let (v, rest3) ← parseBVal (rest2.length) rest2
          match rest3 with
          | ',' :: rest4 =>
              (parseJObjItems fuel rest4).map (fun p => ((k, v) :: p.1, p.2))
          | c :: rest4 =>
              if c = rbraceChar then some ([(k, v)], rest4) else none
          | [] => none
      | _ => none

/-- `json.loads` restricted to the blob payload fragment (an object whose
values are strings or arrays of strings, with no insignificant
whitespace, as canonical payloads are): the parsed members in document
order, requiring the whole input to be consumed. -/
def parseBlobData (s : List Char) : Option (List (String × BValue)) :=
  match s with
  | c :: rest =>
      if c = lbraceChar then
        match rest with
        | d :: rest2 =>
            if d = rbraceChar then (if rest2 = [] then some [] else none)
            else
              match parseJObjItems s.length rest with
              | some (items, []) => some items
              | _ => none
        | [] => none
      else none
  | [] => none

/-- `rsf.parser.parse_blob`: strip, then `json.loads`, wrapped as a blob. -/
def parseBlob (s : String) : Option Blob :=
  (parseBlobData (pyStrip s).data).map Blob.mk

/-- `rsf.parser.parse_hash`: strip, split on `:` into exactly two parts. -/
def parseHash (s : String) : Option Hash :=
  match splitOnChar ':' (pyStrip s).data with
  | [a, d] => some ⟨⟨a⟩, ⟨d⟩⟩
  | _ => none

/-- `Scope(value)`: the enum constructor by value. -/
def parseScope (s : String) : Option Scope :=
  if s = "user" then some .user
  else if s = "system" then some .system
  else none

/-- `rsf.parser.parse_entry`: strip, split on tabs into exactly four
fields, build the entry (with no position). -/
def parseEntry (s : String) : Option Entry :=
  match splitOnChar '\t' (pyStrip s).data with
  | [sc, k, ts, h] => do
      let scope ← parseScope ⟨sc⟩
      let hash ← parseHash ⟨h⟩
      some { key := ⟨k⟩, scope, timestamp := ⟨ts⟩, blob_hash := hash }
  | _ => none

/-- `rsf.parser.parse_command`: split the line on the first tab to get the
action, then parse the remainder per command, mapping failures to the
command-specific exceptions. -/
def parseCommand (original : String) : Except ParseErr Command :=
  match splitFirstTab original.data with
  | none => .error (.unknownCommand original)
  | some (action, rest) =>
      if (⟨action⟩ : String) = "add-item" then
        match parseBlob ⟨rest⟩ with
        | some b => .ok (.addItem b)
        | none => .error (.addItemBad original)
      else if (⟨action⟩ : String) = "append-entry" then
        match parseEntry ⟨rest⟩ with
        | some e => .ok (.appendEntry e)
        | none => .error (.appendEntryBad original)
      else if (⟨action⟩ : String) = "assert-root-hash" then
        match parseHash ⟨rest⟩ with
        | some h => .ok (.assertRootHash h)
        | none => .error (.assertRootHashBad original)
      else .error (.unknownCommand original)

/-- `rsf.parser.parse` on a list of lines. -/
def parseLines (lines : List String) : Except ParseErr (List Command) :=
  lines.mapM parseCommand

/-- `rsf.parser.load`: split the stream into lines and parse them. -/
def rsfLoad (s : String) : Except ParseErr (List Command) :=
  parseLines (pySplitlines s)

/-! ## Value validation (src/registers/validator.py, period datatype) -/

/-- An ASCII decimal digit.  The model of the regex class `\d` is
restricted to ASCII; the inputs of interest here are ASCII. -/
def isAsciiDigit (c : Char) : Bool := 48 ≤ c.toNat && c.toNat ≤ 57

/-- Consumes `\d+` followed by the given suffix letter, or fails leaving
the input unchanged (the behaviour of an optional regex group
`(\d+X)?`). -/
def peelNum (suffix : Char) (s : List Char) : Option (List Char) :=
  let ds := s.takeWhile isAsciiDigit
  let rest := s.dropWhile isAsciiDigit
  if ds ≠ [] && rest.head? = some suffix then some rest.tail else none

/-- The core of `PERIOD_RE`:
`^P(\d+Y)?(\d+M)?(\d+D)?(T(\d+H)?(\d+M)?(\d+S)?)?$`
(without the end-anchor's newline tolerance, which `reDollarMatch` adds). -/
def periodCore (s : List Char) : Bool :=
  match s with
  | 'P' :: r0 =>
      let r1 := (peelNum 'Y' r0).getD r0
      let r2 := (peelNum 'M' r1).getD r1
      let r3 := (peelNum 'D' r2).getD r2
      match r3 with
      | 'T' :: t0 =>
          let t1 := (peelNum 'H' t0).getD t0
          let t2 := (peelNum 'M' t1).getD t1
          let t3 := (peelNum 'S' t2).getD t2
          t3.isEmpty
      | r => r.isEmpty
  | _ => false

/-- `DATETIME_RE` after `:MM`: `(:\d{2})?Z`. -/
def dtAfterMM : List Char → Bool
  | ['Z'] => true
  | ':' :: s1 :: s2 :: ['Z'] => isAsciiDigit s1 && isAsciiDigit s2
  | _ => false

/-- `DATETIME_RE` after `THH`: `(:\d{2}(:\d{2})?)?Z`. -/
def dtAfterHH : List Char → Bool
  | ['Z'] => true
  | ':' :: m1 :: m2 :: rest => isAsciiDigit m1 && isAsciiDigit m2 && dtAfterMM rest
  | _ => false

/-- `DATETIME_RE` after `-DD`: `(T\d{2}(:\d{2}(:\d{2})?)?Z)?`. -/
def dtAfterDay : List Char → Bool
  | [] => true
  | 'T' :: h1 :: h2 :: rest => isAsciiDigit h1 && isAsciiDigit h2 && dtAfterHH rest
  | _ => false

/-- `DATETIME_RE` after `-MM`: `(-\d{2}…)?`. -/
def dtAfterMonth : List Char → Bool
  | [] => true
  | '-' :: d1 :: d2 :: rest => isAsciiDigit d1 && isAsciiDigit d2 && dtAfterDay rest
  | _ => false

/-- `DATETIME_RE` after the year: `(-\d{2}…)?`. -/
def dtAfterYear : List Char → Bool
  | [] => true
  | '-' :: m1 :: m2 :: rest => isAsciiDigit m1 && isAsciiDigit m2 && dtAfterMonth rest
  | _ => false

/-- The core of `DATETIME_RE`:
`^\d{4}(-\d{2}(-\d{2}(T\d{2}(:\d{2}(:\d{2})?)?Z)?)?)?$`. -/
def datetimeCore : List Char → Bool
  | y1 :: y2 :: y3 :: y4 :: rest =>
      isAsciiDigit y1 && isAsciiDigit y2 && isAsciiDigit y3 && isAsciiDigit y4 &&
        dtAfterYear rest
  | _ => false

/-- Python `re.match` with a `^…$` pattern: the `$` anchor also matches
just before a final newline. -/
def reDollarMatch (core : List Char → Bool) (s : String) : Bool :=
  core s.data || (s.data.getLast? = some '\n' && core s.data.dropLast)

/-- `str.endswith("T")`. -/
def endsWithT (s : String) : Bool := s.data.getLast? = some 'T'

/-- `_is_valid_duration` (src/registers/validator.py): `PERIOD_RE` match,
not the bare `"P"`, not ending in `"T"`. -/
def isValidDuration (v : String) : Bool :=
  reDollarMatch periodCore v && v ≠ "P" && !endsWithT v

/-- `_is_valid_period_part`: a datetime or a duration. -/
def isValidPeriodPart (v : String) : Bool :=
  reDollarMatch datetimeCore v || isValidDuration v

/-- The outcomes of period validation: the specialized `InvalidValue`
exception, or the built-in `ValueError` CPython raises when tuple
unpacking fails. -/
inductive ValErr where
  | invalidPeriodValue (value : String)
  | valueError
deriving DecidableEq

/-- `validate_period` (src/registers/validator.py): when the value contains
a `/`, `start, end = value.split("/")` unpacks the split — with two or
more slashes the split yields three or more parts and the unpacking
raises `ValueError`; otherwise both parts must be valid period parts.
Without a slash the value must be a valid duration. -/
def validatePeriod (value : String) : Except ValErr Bool :=
  if value.data.contains '/' then
    match splitOnChar '/' value.data with
    | [start, finish] => .ok (isValidPeriodPart ⟨start⟩ && isValidPeriodPart ⟨finish⟩)
    | _ => .error .valueError
  else .ok (isValidDuration value)

/-- `validate_value_datatype` at datatype `period`
(src/registers/validator.py): raises `InvalidPeriodValue(value)` when
`validate_period` returns falsy, and propagates whatever
`validate_period` itself raises. -/
def validateValuePeriod (value : String) : Except ValErr Bool := do
  let ok ← validatePeriod value
  if !ok then .error (.invalidPeriodValue value) else .ok true

/-! ## The `InvalidValue` exception (src/registers/exceptions.py) -/

/-- `InvalidValue` carries the two attributes exposed by its `datatype`
and `value` properties. -/
structure InvalidValue where
  datatype : String
  value : String
deriving DecidableEq

/-- `InvalidValue.__init__(self, datatype, value)` as written in the
source: `self._datatype = value` and `self._value = value` — the
`datatype` argument is only used in the message. -/
def mkInvalidValue (_datatype value : String) : InvalidValue :=
  { datatype := value, value := value }

/-- `InvalidCurieValue(value)`. -/
def invalidCurieValue (v : String) : InvalidValue := mkInvalidValue "curie" v

/-- `InvalidDatetimeValue(value)`. -/
def invalidDatetimeValue (v : String) : InvalidValue := mkInvalidValue "datetime" v

/-- `InvalidNameValue(value)`. -/
def invalidNameValue (v : String) : InvalidValue := mkInvalidValue "name" v

/-- `InvalidHashValue(value)`. -/
def invalidHashValue (v : String) : InvalidValue := mkInvalidValue "hash" v

/-- `InvalidIntegerValue(value)`. -/
def invalidIntegerValue (v : String) : InvalidValue := mkInvalidValue "integer" v

/-- `InvalidPeriodValue(value)`. -/
def invalidPeriodValue (v : String) : InvalidValue := mkInvalidValue "period" v

/-- `InvalidTimestampValue(value)`. -/
def invalidTimestampValue (v : String) : InvalidValue := mkInvalidValue "timestamp" v

/-- `InvalidUrlValue(value)`. -/
def invalidUrlValue (v : String) : InvalidValue := mkInvalidValue "url" v

/-! ## Tabular serialisation (src/registers/xsv.py) -/

/-- `Cardinality` (src/registers/schema.py). -/
inductive Cardinality where
  | one
  | many
deriving DecidableEq

/-- `quote_value`: wraps a token in double quotes when it contains `;`. -/
def quoteValue (v : String) : String :=
  if v.data.contains ';' then ⟨dqChar :: v.data ++ [dqChar]⟩ else v

/-- `serialise_value` (src/registers/xsv.py): a list is `;`-joined with
per-token quoting; any other value is returned unchanged. -/
def serialiseValue : BValue → String
  | .l vs => ⟨sepJoin ';' (vs.map (fun v => (quoteValue v).data))⟩
  | .s v => v

/-- One line of `csv.reader(..., delimiter=";")`: fields split on `;`,
a field starting with a quote runs to the closing quote (a doubled quote
is a literal quote), and an unterminated quote yields the rest of the
line.  The fuel is at least the input length, and each step consumes a
character. -/
def csvScan : Nat → Bool → List Char → List Char → List String → List String
  | 0, _, _, cur, acc => acc ++ [⟨cur⟩]
  | _ + 1, false, [], cur, acc => acc ++ [⟨cur⟩]
  | fuel + 1, false, c :: rest, cur, acc =>
      if c = ';' then csvScan fuel false rest [] (acc ++ [⟨cur⟩])
      else if c = dqChar && cur.isEmpty then csvScan fuel true rest cur acc
      else csvScan fuel false rest (cur ++ [c]) acc
  | _ + 1, true, [], cur, acc => acc ++ [⟨cur⟩]
  | fuel + 1, true, c :: rest, cur, acc =>
      if c = dqChar then
        match rest with
        | d :: rest2 =>
            if d = dqChar then csvScan fuel true rest2 (cur ++ [dqChar]) acc
            else csvScan fuel false rest cur acc
        | [] => acc ++ [⟨cur⟩]
      else csvScan fuel true rest (cur ++ [c]) acc

/-- `split_token` (src/registers/xsv.py): the first row produced by
`csv.reader(StringIO(token), delimiter=";")`, so the scan stops at a line
break outside quotes. -/
def splitToken (token : String) : List String :=
  let line := token.data.takeWhile (fun c => c ≠ '\n' && c ≠ '\r')
  csvScan (line.length + 1) false line [] []

/-- `deserialise_value` (src/registers/xsv.py): empty/whitespace tokens
give nothing; cardinality `many` splits on `;` with CSV quoting, strips
each token and drops empties; cardinality `one` strips. -/
def deserialiseValue (token : String) (card : Cardinality) : Option BValue :=
  if pyStrip token = "" then none
  else
    match card with
    | .many =>
        some (.l (((splitToken token).map pyStrip).filter (fun v => v ≠ "")))
    | .one => some (.s (pyStrip token))

/-! ## The RFC 6962 root computation as the specification states it -/

/-- One level-building pass as spec §4.2 words it: each adjacent pair
`(a, b)` becomes `SHA-256(0x01 ‖ a ‖ b)`; an odd trailing node is
promoted unchanged into the next level. -/
def specCombine : List Bytes → List Bytes
  | [] => []
  | [x] => [x]
  | a :: b :: rest => sha256 (1 :: (a ++ b)) :: specCombine rest

/-- Iterates level-building until one hash remains. -/
def specReduce : Nat → List Bytes → Bytes
  | 0, lvl => lvl.headD []
  | Nat.succ fuel, lvl =>
      match lvl with
      | [x] => x
      | _ => specReduce fuel (specCombine lvl)

/-- The RFC 6962 root as the specification describes it: the empty tree is
`SHA-256("")`, a single leaf is `SHA-256(0x00 ‖ L₀)`, and otherwise the
leaf hashes are combined level by level until one hash remains. -/
def rfc6962Root (leaves : List Bytes) : Bytes :=
  match leaves with
  | [] => sha256 []
  | [l] => sha256 (0 :: l)
  | _ => specReduce leaves.length (leaves.map (fun l => sha256 (0 :: l)))

/-! ## Concrete fixtures -/

/-- The blob `{"name":"x"}` of scenario S1. -/
def xBlob : Blob := ⟨[("name", BValue.s "x")]⟩

/-- The S1 metadata entry: `append-entry system name 2019-01-01T00:00:00Z`
with the digest of `{"name":"x"}` (as the stream carries it, a
`sha-256:<hex>` hash value). -/
def s1Entry : Entry :=
  { key := "name", scope := .system, timestamp := "2019-01-01T00:00:00Z",
    blob_hash := ⟨"sha-256", xBlob.digest⟩ }

/-- The S1 three-command stream. -/
def s1Commands : List Command :=
  [.assertRootHash ⟨"sha-256",
     "e3b0c44298fc1c149afbf4c8996fb92427ae41e4649b934ca495991b7852b855"⟩,
   .addItem xBlob, .appendEntry s1Entry]

/-- The GB blob of `test_collect_duplicate` (tests/test_log.py). -/
def gbBlob : Blob :=
  ⟨[("citizen-names", BValue.s "Briton;British citizen"),
    ("country", BValue.s "GB"),
    ("name", BValue.s "United Kingdom"),
    ("official-name",
     BValue.s "The United Kingdom of Great Britain and Northern Ireland")]⟩

/-- The GB entry of `test_collect_duplicate`. -/
def gbEntry : Entry :=
  { key := "GB", scope := .user, timestamp := "2019-04-03T00:00:00Z",
    blob_hash := ⟨"sha-256",
      "6b18693874513ba13da54d61aafa7cad0c8f5573f3431d6f1c04b07ddb27d6bb"⟩ }

/-- The duplicate stream of `test_collect_duplicate`: the same add-item and
append-entry twice. -/
def dupCommands : List Command :=
  [.addItem gbBlob, .appendEntry gbEntry, .addItem gbBlob, .appendEntry gbEntry]

/-- The blob `{"register-name":"Country"}` of the digest-stability spec
point. -/
def countryNameBlob : Blob := ⟨[("register-name", BValue.s "Country")]⟩

/-! ## Equivalence of the tree construction with the specification's
recursion -/

/-- Hashing adjacent pairs and then promoting the odd trailing node is one
specification-style combine pass. -/
theorem pairUp_oddTail : ∀ l : List Bytes,
    pairUp l ++ (if l.length % 2 = 1 then [l.getLastD []] else []) = specCombine l
  | [] => by simp [pairUp, specCombine]
  | [x] => by simp [pairUp, specCombine]
  | a :: b :: rest => by
      have ih := pairUp_oddTail rest
      have hmod : (rest.length + 1 + 1) % 2 = rest.length % 2 := by omega
      simp only [pairUp, specCombine, hashNode, List.length_cons, hmod, List.cons_append]
      congr 1
      cases rest with
      | nil => simpa using ih
      | cons r rs => simpa [List.getLastD_cons] using ih

/-- `build_level` agrees with the combine pass on levels of two or more
nodes. -/
theorem buildLevel_eq_spec (l : List Bytes) (h : 2 ≤ l.length) :
    buildLevel l = specCombine l := by
  have hne : l ≠ [] := by rintro rfl; simp at h
  have h1 : l.length ≠ 1 := by omega
  rw [buildLevel, if_neg hne, if_neg h1]
  exact pairUp_oddTail l

/-- The combine pass halves the level, rounding up. -/
theorem specCombine_length : ∀ l : List Bytes,
    (specCombine l).length = (l.length + 1) / 2
  | [] => by simp [specCombine]
  | [_] => by simp [specCombine]
  | a :: b :: rest => by
      simp only [specCombine, List.length_cons, specCombine_length rest]
      omega

/-- Reducing a singleton level yields its node at any fuel. -/
theorem specReduce_single : ∀ (fuel : Nat) (x : Bytes), specReduce fuel [x] = x
  | 0, _ => rfl
  | _ + 1, _ => rfl

/-- The last element of a list ending in `x` is `x`. -/
theorem getLastD_concat_any {α : Type} : ∀ (acc : List α) (x d : α),
    (acc ++ [x]).getLastD d = x
  | [], _, _ => rfl
  | a :: as, x, d => by
      rw [List.cons_append, List.getLastD_cons]
      exact getLastD_concat_any as x a

/-- The `build_levels` loop computes the specification's iterated
reduction: the head of the last accumulated level is the reduced hash. -/
theorem buildLevelsFrom_root : ∀ (fuel : Nat) (acc : List (List Bytes)) (cur : List Bytes),
    2 ≤ cur.length → cur.length ≤ fuel →
    ((buildLevelsFrom fuel acc cur).getLastD []).getD 0 [] = specReduce fuel cur := by
  intro fuel
  induction fuel with
  | zero => intro _ cur h2 hf; omega
  | succ fuel ih =>
      intro acc cur h2 hf
      match cur, h2 with
      | c1 :: c2 :: cur2, _ =>
        have hb : buildLevel (c1 :: c2 :: cur2) = specCombine (c1 :: c2 :: cur2) :=
          buildLevel_eq_spec _ (by simp)
        have hlen : (specCombine (c1 :: c2 :: cur2)).length = (cur2.length + 3) / 2 := by
          rw [specCombine_length]; simp
        rw [buildLevelsFrom, hb]
        by_cases h1 : (specCombine (c1 :: c2 :: cur2)).length = 1
        · rw [if_pos h1]
          obtain ⟨x, hx⟩ : ∃ x, specCombine (c1 :: c2 :: cur2) = [x] := by
            match hsc : specCombine (c1 :: c2 :: cur2), h1 with
            | [x], _ => exact ⟨x, rfl⟩
          rw [hx, getLastD_concat_any]
          show x = specReduce (fuel + 1) (c1 :: c2 :: cur2)
          have : specReduce (fuel + 1) (c1 :: c2 :: cur2)
              = specReduce fuel (specCombine (c1 :: c2 :: cur2)) := by
            cases cur2 <;> rfl
          rw [this, hx, specReduce_single]
        · rw [if_neg h1]
          have h2' : 2 ≤ (specCombine (c1 :: c2 :: cur2)).length := by
            simp at hlen; omega
          have hf' : (specCombine (c1 :: c2 :: cur2)).length ≤ fuel := by
            simp at hf ⊢; omega
          rw [ih (acc ++ [specCombine (c1 :: c2 :: cur2)]) _ h2' hf']
          have : specReduce (fuel + 1) (c1 :: c2 :: cur2)
              = specReduce fuel (specCombine (c1 :: c2 :: cur2)) := by
            cases cur2 <;> rfl
          rw [this]

/-- `Tree(leaves).root_hash` equals the specification's RFC 6962 root for
every list of leaves. -/
theorem treeRoot_eq_spec : ∀ leaves : List Bytes, treeRootHash leaves = rfc6962Root leaves := by
  intro leaves
  match leaves with
  | [] => rfl
  | [l] => rfl
  | l1 :: l2 :: ls =>
      have hne : (l1 :: l2 :: ls) ≠ ([] : List Bytes) := by simp
      have h1 : (l1 :: l2 :: ls).length ≠ 1 := by simp
      rw [treeRootHash, buildLevels]
      simp only [if_neg hne, if_neg h1]
      rw [buildLevelsFrom_root _ _ _ (by simp) (by simp)]
      rfl

/-! ## Claim theorems (first batch) -/

set_option maxRecDepth 20000

/-- C1: the claim states that loading the S1 stream succeeds and yields a
register with uid `"x"`, an empty data log and a one-entry metadata log
(as the repository's own `test_collect` and `test_load_commands` expect of
this shape of stream).  The code instead raises `OrphanEntry` at the
`append-entry` command: `collect` keys the blob pool by `Blob.digest()`,
a bare `str`, but looks it up with the entry's `Hash` object, so the blob
added by `add-item` is never found. -/
theorem claimC1 : Register.load s1Commands = .error (.orphanEntry s1Entry) := by
  rfl

/-- C3: the claim states that `Blob.digest` renders the digest in the form
`sha-256:<hex>`.  The code computes the right SHA-256 hex digest of the
canonical JSON but returns the bare hex string, not the `sha-256:`-tagged
form the repository's own `test_digest` expects (`Hash("sha-256", …)`). -/
theorem claimC3 :
    countryNameBlob.digest =
      "9f21f032105bb320d1f0c4f9c74a84a69e2d0a41932eb4543c331ce73e0bb1fb" ∧
    countryNameBlob.digest ≠
      "sha-256:9f21f032105bb320d1f0c4f9c74a84a69e2d0a41932eb4543c331ce73e0bb1fb" := by
  constructor
  · decide
  · decide

/-- C4: `Tree(leaves).root_hash` follows RFC 6962 for every list of byte
string leaves: the empty tree is `SHA-256("")` (the constant
`e3b0…b855`), a single leaf is `SHA-256(0x00 ‖ L₀)`, and otherwise levels
are built by hashing adjacent pairs as `SHA-256(0x01 ‖ a ‖ b)` with an
odd trailing node promoted unchanged, iterated until one hash remains
(`rfc6962Root`). -/
theorem claimC4 :
    (∀ leaves : List Bytes, treeRootHash leaves = rfc6962Root leaves) ∧
    treeRootHash [] = sha256 [] ∧
    (∀ l : Bytes, treeRootHash [l] = sha256 (0 :: l)) ∧
    bytesToHex (treeRootHash []) =
      "e3b0c44298fc1c149afbf4c8996fb92427ae41e4649b934ca495991b7852b855" :=
  ⟨treeRoot_eq_spec, rfl, fun _ => rfl, by decide⟩

/-- Invariant L3 as the claim states it: the log's digest is the
`sha-256` hash whose hex is the RFC 6962 root over the ordered entry
canonical byte encodings, each entry's canonical bytes being the UTF-8
encoding of its Entry JSON representation. -/
def LogRootInv (log : Log) : Prop :=
  log.digest =
    ⟨"sha-256", bytesToHex (rfc6962Root (log.entries.map (fun e => utf8 e.toJson)))⟩

/-- C2: the log digest invariant holds for every constructed log and is
re-established by every `Log.insert` of an entry (which recomputes the
cached root) and untouched by inserting a blob.  `Entry.bytes` is
modelled from the spec (see its doc comment); `Entry.toJson` is the
source's entry JSON. -/
theorem claimC2 :
    (∀ (entries : List Entry) (blobs : List (PyKey × Blob)),
       LogRootInv (Log.init entries blobs)) ∧
    (∀ (log : Log) (e : Entry), LogRootInv log → LogRootInv (log.insertEntry e)) ∧
    (∀ (log : Log) (b : Blob), LogRootInv log → LogRootInv (log.insertBlob b)) := by
  refine ⟨?_, ?_, ?_⟩
  · intro entries blobs
    show Hash.mk "sha-256" (bytesToHex (treeRootHash (entries.map Entry.bytes))) = _
    rw [treeRoot_eq_spec]
    rfl
  · intro log e _
    show Hash.mk "sha-256"
        (bytesToHex (treeRootHash ((log.insertEntry e).entries.map Entry.bytes))) = _
    rw [treeRoot_eq_spec]
    rfl
  · intro log b h
    exact h

/-- Witness for C2 at a concrete log, entry and blob. -/
theorem claimC2_witness :
    LogRootInv (Log.empty.insertEntry s1Entry) ∧
    LogRootInv (Log.empty.insertBlob xBlob) :=
  ⟨claimC2.2.1 Log.empty s1Entry (by rfl), claimC2.2.2 Log.empty xBlob (by rfl)⟩

/-- C5: the claim states that a duplicate `append-entry` (same key and blob
hash as the latest record) yields exactly one `DuplicatedEntry` error in
non-relaxed mode and is suppressed in relaxed mode, the log not advancing
(the repository's own `test_collect_duplicate` expects one error).  The
code never reaches the duplicate check: the first `append-entry` already
raises `OrphanEntry` because the blob pool is keyed by the bare `str`
digest while the lookup uses the entry's `Hash` object — in both modes. -/
theorem claimC5 :
    collect dupCommands = .error (.orphanEntry gbEntry) ∧
    collect dupCommands none none true = .error (.orphanEntry gbEntry) := by
  constructor
  · rfl
  · rfl

/-- The collector state at the start of a run over fresh logs. -/
def initState : CollectState :=
  { data := Log.empty, metadata := Log.empty, pool := [], errors := [] }

/-- The collector fold from an arbitrary state. -/
def collectSteps (relaxed : Bool) (st : CollectState) (cmds : List Command) :
    Except CollectErr CollectState :=
  cmds.foldlM (collectStep relaxed) st

/-- `collect` over fresh logs is the fold from the initial state. -/
theorem collect_eq_steps (cmds : List Command) (relaxed : Bool) :
    collect cmds none none relaxed = collectSteps relaxed initState cmds := rfl

/-- The collector fold splits over list append. -/
theorem collectSteps_append (r : Bool) (st : CollectState) (l1 l2 : List Command) :
    collectSteps r st (l1 ++ l2) =
      (collectSteps r st l1) >>= (fun s => collectSteps r s l2) := by
  induction l1 generalizing st with
  | nil => rfl
  | cons c cs ih =>
      show (collectStep r st c) >>= _ = ((collectStep r st c) >>= _) >>= _
      cases collectStep r st c with
      | error e => rfl
      | ok s => exact ih s

/-- Both cached log sizes equal the entry counts. -/
def sizesOk (st : CollectState) : Prop :=
  st.data.size = st.data.entries.length ∧ st.metadata.size = st.metadata.entries.length

/-- Inserting a blob touches neither entries nor size. -/
theorem insertBlob_size (log : Log) (b : Blob) :
    (log.insertBlob b).size = log.size ∧ (log.insertBlob b).entries = log.entries :=
  ⟨rfl, rfl⟩

/-- Inserting an entry keeps the size in step with the entry count. -/
theorem insertEntry_size (log : Log) (e : Entry)
    (h : log.size = log.entries.length) :
    (log.insertEntry e).size = (log.insertEntry e).entries.length := by
  simp [Log.insertEntry, h]

/-- Binding a success on `Except` applies the continuation. -/
theorem except_bind_ok {e1 a1 b1 : Type} (a : a1) (f : a1 → Except e1 b1) :
    (Except.ok a >>= f) = f a := rfl

/-- Binding a failure on `Except` propagates it. -/
theorem except_bind_error {e1 a1 b1 : Type} (err : e1) (f : a1 → Except e1 b1) :
    ((Except.error err : Except e1 a1) >>= f) = Except.error err := rfl

/-- One collector step preserves the size bookkeeping. -/
theorem collectStep_sizes (r : Bool) (st : CollectState) (c : Command)
    (st' : CollectState) (h : collectStep r st c = .ok st') (hs : sizesOk st) :
    sizesOk st' := by
  cases c with
  | assertRootHash hh =>
      simp only [collectStep] at h
      split at h
      · simp at h
      · simp only [Except.ok.injEq] at h
        subst h
        exact hs
  | addItem b =>
      simp only [collectStep] at h
      simp only [Except.ok.injEq] at h
      subst h
      exact hs
  | appendEntry e =>
      simp only [collectStep] at h
      split at h
      · simp at h
      · rename_i blob hblob
        split at h
        · cases hsnap : (st.metadata.insertBlob blob).snapshotE with
          | error err => rw [hsnap, except_bind_error] at h; simp at h
          | ok snap =>
              rw [hsnap, except_bind_ok] at h
              cases hrec : sdictGet snap e.key with
              | some r0 => rw [hrec] at h; simp [collectEntry, except_bind_error] at h
              | none =>
                  rw [hrec] at h
                  simp only [collectEntry, except_bind_ok, Except.ok.injEq] at h
                  subst h
                  exact ⟨hs.1, insertEntry_size _ _ hs.2⟩
        · cases hsnap : (st.data.insertBlob blob).snapshotE with
          | error err => rw [hsnap, except_bind_error] at h; simp at h
          | ok snap =>
              rw [hsnap, except_bind_ok] at h
              cases hrec : sdictGet snap e.key with
              | some r0 => rw [hrec] at h; simp [collectEntry, except_bind_error] at h
              | none =>
                  rw [hrec] at h
                  simp only [collectEntry, except_bind_ok, Except.ok.injEq] at h
                  subst h
                  exact ⟨insertEntry_size _ _ hs.1, hs.2⟩

/-- The collector fold preserves the size bookkeeping. -/
theorem collectSteps_sizes (r : Bool) : ∀ (cmds : List Command) (st st' : CollectState),
    sizesOk st → collectSteps r st cmds = .ok st' → sizesOk st'
  | [], st, st', hs, h => by cases h; exact hs
  | c :: cs, st, st', hs, h => by
      have hc : collectSteps r st (c :: cs)
          = (collectStep r st c) >>= (fun s => collectSteps r s cs) := rfl
      rw [hc] at h
      cases hstep : collectStep r st c with
      | error e => rw [hstep] at h; cases h
      | ok s =>
          rw [hstep] at h
          exact collectSteps_sizes r cs s st' (collectStep_sizes r st c s hstep hs) h

/-- C6: during a collection run over fresh logs, an `assert-root-hash`
whose hash differs from the data log's current Merkle root aborts the run
with `InconsistentLog` carrying the expected hash, the actual data-log
root, and the data-log size (which equals the number of entries appended
to the data log so far); an `assert-root-hash` whose hash equals the
current root raises nothing and leaves the entire collection state
unchanged (collection continues exactly as if the command were absent). -/
theorem claimC6 (relaxed : Bool) (pre rest : List Command) (h : Hash)
    (st : CollectState) (hpre : collect pre none none relaxed = .ok st) :
    (h ≠ st.data.digest →
      collect (pre ++ Command.assertRootHash h :: rest) none none relaxed
        = .error (.inconsistentLog h st.data.digest st.data.size)) ∧
    (h = st.data.digest →
      collect (pre ++ Command.assertRootHash h :: rest) none none relaxed
        = collect (pre ++ rest) none none relaxed) ∧
    st.data.size = st.data.entries.length := by
  have hpre' : collectSteps relaxed initState pre = .ok st := hpre
  refine ⟨?_, ?_,
    (collectSteps_sizes relaxed pre initState st ⟨rfl, rfl⟩ hpre').1⟩
  · intro hne
    show collectSteps relaxed initState (pre ++ _ :: rest) = _
    rw [collectSteps_append, hpre', except_bind_ok]
    show (collectStep relaxed st (.assertRootHash h)) >>= _ = _
    have hstep : collectStep relaxed st (.assertRootHash h)
        = .error (.inconsistentLog h st.data.digest st.data.size) := by
      simp only [collectStep]
      rw [if_pos hne]
    rw [hstep, except_bind_error]
  · intro heq
    show collectSteps relaxed initState (pre ++ _ :: rest) = _
    rw [collectSteps_append, hpre', except_bind_ok]
    show (collectStep relaxed st (.assertRootHash h)) >>= _ = _
    have hstep : collectStep relaxed st (.assertRootHash h) = .ok st := by
      simp only [collectStep]
      rw [if_neg (by simp [heq])]
    rw [hstep, except_bind_ok]
    show collectSteps relaxed st rest = _
    rw [collect_eq_steps, collectSteps_append, hpre', except_bind_ok]

/-- The all-zero hash used in the S5-style witness. -/
def zeroHash : Hash :=
  ⟨"sha-256", "0000000000000000000000000000000000000000000000000000000000000000"⟩

/-- Witness for C6: asserting the all-zero root over a fresh register
aborts with `InconsistentLog` carrying the empty-tree root and size 0. -/
theorem claimC6_witness :
    collect [Command.assertRootHash zeroHash] none none false
      = .error (.inconsistentLog zeroHash Log.empty.digest Log.empty.size) := by
  have hw := claimC6 false [] [] zeroHash initState rfl
  have hne : zeroHash ≠ initState.data.digest := by decide
  simpa using hw.1 hne

/-! ## C7: well-formed streams and the round trip -/

/-- `String.data` distributes over append. -/
theorem strData_append (a b : String) : (a ++ b).data = a.data ++ b.data := rfl

/-- No character of the list is a `splitlines` boundary. -/
def noLB (l : List Char) : Bool := l.all (fun c => !isLineBoundary c)

/-- The string contains none of the three line-boundary characters that
JSON escaping leaves raw (U+0085, U+2028, U+2029); all other boundary
characters are control characters below 0x20 and get escaped. -/
def noExoticChar (s : String) : Bool :=
  s.data.all (fun c => !(c.toNat = 133 || c.toNat = 8232 || c.toNat = 8233))

/-- A canonical blob value: its strings carry no raw line-boundary
character. -/
def canonicalBVal : BValue → Bool
  | .s v => noExoticChar v
  | .l vs => vs.all noExoticChar

/-- Keys in strictly increasing Python-string order. -/
def strictSortedKeys : List (String × BValue) → Bool
  | [] => true
  | [_] => true
  | p :: q :: t => pyStrLt p.1 q.1 && strictSortedKeys (q :: t)

/-- A canonical blob as the claim's "canonical blob JSON" demands: keys
strictly sorted (hence distinct), and no string carrying a raw
line-boundary character. -/
def canonicalBlob (b : Blob) : Bool :=
  strictSortedKeys b.data &&
    b.data.all (fun p => noExoticChar p.1 && canonicalBVal p.2)

/-- A raw wire-format field (entry key or timestamp): no tab and no line
boundary. -/
def fieldOk (s : String) : Bool :=
  s.data.all (fun c => !(c = '\t') && !isLineBoundary c)

/-- A character allowed in the `algorithm` token of a wire-format hash:
lowercase letter, digit or hyphen. -/
def algCharOk (c : Char) : Bool :=
  (97 ≤ c.toNat && c.toNat ≤ 122) || (48 ≤ c.toNat && c.toNat ≤ 57) || c.toNat = 45

/-- A lowercase hex digit. -/
def hexCharOk (c : Char) : Bool :=
  (48 ≤ c.toNat && c.toNat ≤ 57) || (97 ≤ c.toNat && c.toNat ≤ 102)

/-- A wire-format hash `<alg>:<hex>` per the §6 grammar: a nonempty
algorithm token and nonempty hex digits. -/
def hashWireOk (h : Hash) : Bool :=
  !h.algorithm.data.isEmpty && h.algorithm.data.all algCharOk &&
    !h.digest.data.isEmpty && h.digest.data.all hexCharOk

/-- A command in the §6 wire format with canonical payload: an `add-item`
carries canonical blob JSON; an `append-entry` carries tab- and
boundary-free key and timestamp, a grammatical hash, and no position (the
wire format does not carry positions); an `assert-root-hash` carries a
grammatical hash. -/
def CanonicalCommand : Command → Bool
  | .addItem b => canonicalBlob b
  | .appendEntry e =>
      fieldOk e.key && fieldOk e.timestamp && hashWireOk e.blob_hash &&
        e.position.isNone
  | .assertRootHash h => hashWireOk h

/-- A well-formed RSF stream per the claim: a nonempty sequence of
wire-format commands with canonical add-item payloads, each line
newline-terminated — that is, the newline-joined, newline-terminated
rendering of canonical commands. -/
def WellFormedRsf (stream : String) : Prop :=
  ∃ cmds : List Command, cmds ≠ [] ∧ (∀ c ∈ cmds, CanonicalCommand c = true) ∧
    stream = dump cmds

/-- A non-boundary character is accumulated into the current line. -/
theorem splitlinesAux_cons_nb (c : Char) (rest cur : List Char)
    (h : isLineBoundary c = false) :
    splitlinesAux (c :: rest) cur = splitlinesAux rest (c :: cur) := by
  have hr : c ≠ '\r' := by intro he; subst he; simp [isLineBoundary] at h
  rw [splitlinesAux.eq_def]
  simp [h, hr]

/-- Consuming one boundary-free line up to its newline. -/
theorem splitlinesAux_line : ∀ (L : List Char) (rest cur : List Char), noLB L = true →
    splitlinesAux (L ++ '\n' :: rest) cur = ⟨cur.reverse ++ L⟩ :: splitlinesAux rest []
  | [], rest, cur, _ => by
      show splitlinesAux ('\n' :: rest) cur = _
      rw [splitlinesAux.eq_def]
      simp [isLineBoundary]
  | c :: L, rest, cur, h => by
      have h2 : (!isLineBoundary c) = true ∧ noLB L = true := by
        simpa [noLB, List.all_cons, Bool.and_eq_true] using h
      have hc : isLineBoundary c = false := by simpa using h2.1
      have hL : noLB L = true := h2.2
      rw [List.cons_append, splitlinesAux_cons_nb c _ _ hc,
        splitlinesAux_line L rest (c :: cur) hL]
      simp

/-- `splitlines` of a newline-joined, newline-terminated rendering
recovers the lines, provided no line carries a boundary character. -/
theorem pySplitlines_join : ∀ (lines : List (List Char)),
    (∀ L ∈ lines, noLB L = true) → lines ≠ [] →
    splitlinesAux (sepJoin '\n' lines ++ ['\n']) [] = lines.map (fun L => ⟨L⟩)
  | [], _, hne => absurd rfl hne
  | [L], h, _ => by
      show splitlinesAux (L ++ '\n' :: []) [] = _
      rw [splitlinesAux_line L [] [] (h L (by simp))]
      rfl
  | L :: L2 :: t, h, _ => by
      show splitlinesAux ((L ++ '\n' :: sepJoin '\n' (L2 :: t)) ++ ['\n']) [] = _
      rw [List.append_assoc, List.cons_append,
        splitlinesAux_line L _ [] (h L (by simp)),
        pySplitlines_join (L2 :: t) (fun x hx => h x (by simp [hx])) (by simp)]
      rfl

/-- `str.strip()` is the identity on a string whose first and last
characters are not whitespace. -/
theorem pyStrip_noop (c : Char) (mid : List Char) (d : Char)
    (hc : pyIsSpace c = false) (hd : pyIsSpace d = false) :
    pyStrip ⟨c :: (mid ++ [d])⟩ = ⟨c :: (mid ++ [d])⟩ := by
  have h1 : (c :: (mid ++ [d])).dropWhile pyIsSpace = c :: (mid ++ [d]) := by
    rw [List.dropWhile_cons, hc]; simp
  have h2 : (c :: (mid ++ [d])).reverse = d :: (mid.reverse ++ [c]) := by simp
  have h3 : (d :: (mid.reverse ++ [c])).dropWhile pyIsSpace
      = d :: (mid.reverse ++ [c]) := by
    rw [List.dropWhile_cons, hd]; simp
  show (⟨((((c :: (mid ++ [d])).dropWhile pyIsSpace)).reverse.dropWhile pyIsSpace).reverse⟩ : String) = _
  rw [h1, h2, h3]
  simp

/-- Splitting at the first tab of `A ++ '\t' :: R` when `A` is tab-free. -/
theorem splitFirstTab_of_no_tab : ∀ (A R : List Char),
    (∀ ch ∈ A, ch ≠ '\t') → splitFirstTab (A ++ '\t' :: R) = some (A, R)
  | [], R, _ => by simp [splitFirstTab]
  | a :: A, R, h => by
      have ha : a ≠ '\t' := h a (by simp)
      simp [splitFirstTab, ha,
        splitFirstTab_of_no_tab A R (fun ch hc => h ch (by simp [hc]))]

/-- `str.split(sep)` never yields an empty list. -/
theorem splitOnChar_ne_nil (sep : Char) : ∀ l : List Char, splitOnChar sep l ≠ []
  | [] => by simp [splitOnChar]
  | c :: rest => by
      simp only [splitOnChar]
      cases hs : splitOnChar sep rest with
      | nil => exact absurd hs (splitOnChar_ne_nil sep rest)
      | cons seg segs =>
          show (if c = sep then [] :: seg :: segs else (c :: seg) :: segs) ≠ []
          split <;> simp

/-- A separator-free string splits into itself. -/
theorem splitOnChar_sepFree (sep : Char) : ∀ A : List Char,
    (∀ ch ∈ A, ch ≠ sep) → splitOnChar sep A = [A]
  | [], _ => rfl
  | a :: A, h => by
      have := splitOnChar_sepFree sep A (fun ch hc => h ch (by simp [hc]))
      simp only [splitOnChar, this]
      rw [if_neg (h a (by simp))]

/-- Splitting peels a separator-free prefix. -/
theorem splitOnChar_append (sep : Char) : ∀ (A R : List Char),
    (∀ ch ∈ A, ch ≠ sep) →
    splitOnChar sep (A ++ sep :: R) = A :: splitOnChar sep R
  | [], R, _ => by
      simp only [List.append_eq, List.nil_append, splitOnChar]
      cases hs : splitOnChar sep R with
      | nil => exact absurd hs (splitOnChar_ne_nil sep R)
      | cons seg segs => simp
  | a :: A, R, h => by
      have ih := splitOnChar_append sep A R (fun ch hc => h ch (by simp [hc]))
      show (match splitOnChar sep (A ++ sep :: R) with
            | [] => [[]]
            | seg :: segs =>
                if a = sep then [] :: seg :: segs else (a :: seg) :: segs) = _
      rw [ih]
      show (if a = sep then [] :: A :: splitOnChar sep R
            else (a :: A) :: splitOnChar sep R) = _
      rw [if_neg (h a (by simp))]

/-- Hex digits round-trip through `hexVal`. -/
theorem hexVal_hexDigitChar : ∀ n : Nat, n < 16 → hexVal (hexDigitChar n) = some n := by
  decide

/-- Appending past an escape fold moves into its initial segment. -/
theorem escFoldr_append : ∀ (l : List Char) (i r : List Char),
    (l.foldr (fun c acc => escapeChar c ++ acc) i) ++ r
      = l.foldr (fun c acc => escapeChar c ++ acc) (i ++ r)
  | [], _, _ => rfl
  | c :: l, i, r => by
      simp only [List.foldr_cons, List.append_assoc, escFoldr_append l i r]

/-- One step of the string-body parser past a plain character. -/
theorem parseJStringBody_plain (c : Char) (T : List Char)
    (h1 : c ≠ dqChar) (h2 : c ≠ bsChar) (h32 : ¬c.toNat < 32) :
    parseJStringBody (c :: T)
      = (parseJStringBody T).map (fun p => (c :: p.1, p.2)) := by
  rw [parseJStringBody.eq_def]
  simp [h1, h2, h32]

/-- One step of the string-body parser past a single-character escape. -/
theorem parseJStringBody_esc (e ec : Char) (T : List Char)
    (he : e ≠ 'u') (hu : unescapeChar e = some ec) :
    parseJStringBody (bsChar :: e :: T)
      = (parseJStringBody T).map (fun p => (ec :: p.1, p.2)) := by
  rw [parseJStringBody.eq_def]
  simp +decide [he, hu]

/-- One step of the string-body parser past a `\u00XX` escape. -/
theorem parseJStringBody_u (T : List Char) (h3 h4 : Char) (v3 v4 : Nat)
    (hv3 : hexVal h3 = some v3) (hv4 : hexVal h4 = some v4) :
    parseJStringBody (bsChar :: 'u' :: '0' :: '0' :: h3 :: h4 :: T)
      = (parseJStringBody T).map
          (fun p => (Char.ofNat (v3 * 16 + v4) :: p.1, p.2)) := by
  rw [parseJStringBody.eq_def]
  simp +decide [hv3, hv4, show hexVal '0' = some 0 from rfl]

/-- The closing quote ends the string body. -/
theorem parseJStringBody_close (rest : List Char) :
    parseJStringBody (dqChar :: rest) = some ([], rest) := by
  rw [parseJStringBody.eq_def]
  simp

/-- Parsing a string body undoes the escape fold, for every string. -/
theorem parseJStringBody_round : ∀ (l rest : List Char),
    parseJStringBody (l.foldr (fun c acc => escapeChar c ++ acc) (dqChar :: rest))
      = some (l, rest)
  | [], rest => parseJStringBody_close rest
  | c :: l, rest => by
      have ih := parseJStringBody_round l rest
      simp only [List.foldr_cons]
      by_cases h1 : c = dqChar
      · subst h1
        show parseJStringBody (bsChar :: dqChar :: _) = _
        rw [parseJStringBody_esc dqChar dqChar _ (by decide) (by decide), List.append_eq, List.nil_append, ih]
        rfl
      · by_cases h2 : c = bsChar
        · subst h2
          show parseJStringBody (bsChar :: bsChar :: _) = _
          rw [parseJStringBody_esc bsChar bsChar _ (by decide) (by decide), List.append_eq, List.nil_append, ih]
          rfl
        · by_cases h8 : c.toNat = 8
          · have hc : Char.ofNat 8 = c := by rw [← h8, Char.ofNat_toNat]
            have hesc : escapeChar c = [bsChar, 'b'] := by
              simp +decide [escapeChar, h1, h2, h8]
            rw [hesc]
            show parseJStringBody (bsChar :: 'b' :: _) = _
            rw [parseJStringBody_esc 'b' (Char.ofNat 8) _ (by decide) (by decide), List.append_eq, List.nil_append, ih, hc]
            rfl
          · by_cases h9 : c.toNat = 9
            · have hc : Char.ofNat 9 = c := by rw [← h9, Char.ofNat_toNat]
              have hesc : escapeChar c = [bsChar, 't'] := by
                simp +decide [escapeChar, h1, h2, h8, h9]
              rw [hesc]
              show parseJStringBody (bsChar :: 't' :: _) = _
              rw [parseJStringBody_esc 't' (Char.ofNat 9) _ (by decide) (by decide), List.append_eq, List.nil_append, ih, hc]
              rfl
            · by_cases h10 : c.toNat = 10
              · have hc : Char.ofNat 10 = c := by rw [← h10, Char.ofNat_toNat]
                have hesc : escapeChar c = [bsChar, 'n'] := by
                  simp +decide [escapeChar, h1, h2, h8, h9, h10]
                rw [hesc]
                show parseJStringBody (bsChar :: 'n' :: _) = _
                rw [parseJStringBody_esc 'n' (Char.ofNat 10) _ (by decide) (by decide), List.append_eq, List.nil_append,
                  ih, hc]
                rfl
              · by_cases h12 : c.toNat = 12
                · have hc : Char.ofNat 12 = c := by rw [← h12, Char.ofNat_toNat]
                  have hesc : escapeChar c = [bsChar, 'f'] := by
                    simp +decide [escapeChar, h1, h2, h8, h9, h10, h12]
                  rw [hesc]
                  show parseJStringBody (bsChar :: 'f' :: _) = _
                  rw [parseJStringBody_esc 'f' (Char.ofNat 12) _ (by decide) (by decide), List.append_eq, List.nil_append,
                    ih, hc]
                  rfl
                · by_cases h13 : c.toNat = 13
                  · have hc : Char.ofNat 13 = c := by rw [← h13, Char.ofNat_toNat]
                    have hesc : escapeChar c = [bsChar, 'r'] := by
                      simp +decide [escapeChar, h1, h2, h8, h9, h10, h12, h13]
                    rw [hesc]
                    show parseJStringBody (bsChar :: 'r' :: _) = _
                    rw [parseJStringBody_esc 'r' (Char.ofNat 13) _ (by decide) (by decide), List.append_eq, List.nil_append,
                      ih, hc]
                    rfl
                  · by_cases h32 : c.toNat < 32
                    · have hhi := hexVal_hexDigitChar (c.toNat / 16) (by omega)
                      have hlo := hexVal_hexDigitChar (c.toNat % 16) (by omega)
                      have hesc : escapeChar c = [bsChar, 'u', '0', '0',
                          hexDigitChar (c.toNat / 16), hexDigitChar (c.toNat % 16)] := by
                        simp [escapeChar, h1, h2, h8, h9, h10, h12, h13, h32]
                      rw [hesc]
                      show parseJStringBody (bsChar :: 'u' :: '0' :: '0' ::
                          hexDigitChar (c.toNat / 16) :: hexDigitChar (c.toNat % 16) :: _) = _
                      rw [parseJStringBody_u _ _ _ _ _ hhi hlo, List.append_eq, List.nil_append, ih]
                      have hval : (c.toNat / 16 * 16 + c.toNat % 16) = c.toNat := by omega
                      rw [hval, Char.ofNat_toNat]
                      rfl
                    · have hesc : escapeChar c = [c] := by
                        simp [escapeChar, h1, h2, h8, h9, h10, h12, h13, h32]
                      rw [hesc]
                      show parseJStringBody (c :: _) = _
                      rw [parseJStringBody_plain c _ h1 h2 h32, List.append_eq, List.nil_append, ih]
                      rfl

/-- Parsing a JSON string literal undoes `jsonQuote`. -/
theorem parseJStr_quote (s : String) (rest : List Char) :
    parseJStr (jsonQuote s ++ rest) = some (s, rest) := by
  have hq : jsonQuote s ++ rest
      = dqChar :: s.data.foldr (fun c acc => escapeChar c ++ acc) (dqChar :: rest) := by
    simp [jsonQuote, escFoldr_append]
  rw [hq, parseJStr.eq_def]
  simp [parseJStringBody_round s.data rest]

/-- A quoted string is never empty. -/
theorem jsonQuote_ne_nil (s : String) : jsonQuote s ≠ [] := by
  simp [jsonQuote]

/-- A join of nonempty chunks has at least one character per chunk. -/
theorem length_le_sepJoin (sep : Char) : ∀ ls : List (List Char),
    (∀ x ∈ ls, x ≠ []) → ls.length ≤ (sepJoin sep ls).length
  | [], _ => by simp [sepJoin]
  | [x], h => by
      have hx : x ≠ [] := h x (by simp)
      have : 0 < x.length := List.length_pos.mpr hx
      simpa [sepJoin] using this
  | x :: y :: t, h => by
      have ih := length_le_sepJoin sep (y :: t) (fun a ha => h a (by simp [ha]))
      have hx : 0 < x.length := List.length_pos.mpr (h x (by simp))
      simp only [sepJoin, List.length_append, List.length_cons] at ih ⊢
      omega

/-- Parsing array items undoes the joined rendering of a nonempty string
list, with fuel at least the item count. -/
theorem parseJArrayItems_round : ∀ (vs : List String) (rest : List Char) (fuel : Nat),
    vs.length ≤ fuel → vs ≠ [] →
    parseJArrayItems fuel (sepJoin ',' (vs.map jsonQuote) ++ ']' :: rest)
      = some (vs, rest)
  | [], _, _, _, hne => absurd rfl hne
  | [v], rest, fuel, hf, _ => by
      match fuel, hf with
      | Nat.succ fuel, _ =>
        show parseJArrayItems (fuel + 1) (jsonQuote v ++ ']' :: rest) = _
        rw [parseJArrayItems.eq_def]
        simp [parseJStr_quote v (']' :: rest)]
  | v :: v2 :: t, rest, fuel, hf, _ => by
      match fuel, hf with
      | Nat.succ fuel, hf =>
        have ih := parseJArrayItems_round (v2 :: t) rest fuel (by simpa using hf) (by simp)
        have hsep : sepJoin ',' ((v :: v2 :: t).map jsonQuote)
            = jsonQuote v ++ ',' :: sepJoin ',' ((v2 :: t).map jsonQuote) := by
          simp [sepJoin]
        rw [hsep, List.append_assoc, List.cons_append]
        rw [parseJArrayItems.eq_def]
        simp [parseJStr_quote]
        simpa using ih

/-- The head of a joined list of quoted strings is the quote character. -/
theorem sepJoin_quote_head (sep : Char) (v : String) (vs : List (List Char)) :
    ∃ tl, sepJoin sep (jsonQuote v :: vs) = dqChar :: tl := by
  cases vs with
  | nil => exact ⟨_, rfl⟩
  | cons y t => exact ⟨_, rfl⟩

/-- The number of parse steps an array value needs. -/
def bvalCount : BValue → Nat
  | .s _ => 0
  | .l vs => vs.length

/-- The rendering of a value is at least as long as its item count. -/
theorem bvalCount_le_render (v : BValue) : bvalCount v ≤ (renderBVal v).length := by
  cases v with
  | s _ => simp [bvalCount]
  | l vs =>
      cases vs with
      | nil => simp [bvalCount, renderBVal]
      | cons x t =>
          have := length_le_sepJoin ',' ((x :: t).map jsonQuote)
            (by intro a ha
                rw [List.mem_map] at ha
                obtain ⟨s2, _, rfl⟩ := ha
                exact jsonQuote_ne_nil s2)
          simp only [bvalCount, renderBVal, List.length_cons, List.length_append,
            List.length_map] at this ⊢
          omega

/-- Parsing a blob value undoes its rendering, with sufficient fuel. -/
theorem parseBVal_round (v : BValue) (rest : List Char) (fuel : Nat)
    (hf : bvalCount v ≤ fuel) :
    parseBVal fuel (renderBVal v ++ rest) = some (v, rest) := by
  cases v with
  | s s0 =>
      have hq : renderBVal (BValue.s s0) ++ rest
          = dqChar :: s0.data.foldr (fun c acc => escapeChar c ++ acc) (dqChar :: rest) := by
        simp [renderBVal, jsonQuote, escFoldr_append]
      rw [hq]
      show (parseJStr (dqChar ::
          s0.data.foldr (fun c acc => escapeChar c ++ acc) (dqChar :: rest))).map
        (fun p => (BValue.s p.1, p.2)) = _
      rw [← hq]
      have hr : renderBVal (BValue.s s0) ++ rest = jsonQuote s0 ++ rest := rfl
      rw [hr, parseJStr_quote]
      rfl
  | l vs =>
      cases vs with
      | nil => rfl
      | cons x t =>
          have ih := parseJArrayItems_round (x :: t) rest fuel
            (by simpa [bvalCount] using hf) (by simp)
          have hr : renderBVal (BValue.l (x :: t)) ++ rest
              = '[' :: (sepJoin ',' ((x :: t).map jsonQuote) ++ ']' :: rest) := by
            simp [renderBVal]
          rw [hr]
          obtain ⟨tl, htl⟩ := sepJoin_quote_head ',' x ((t).map jsonQuote)
          rw [show (x :: t).map jsonQuote = jsonQuote x :: t.map jsonQuote from rfl, htl]
          show (parseJArrayItems fuel ((dqChar :: tl) ++ ']' :: rest)).map
              (fun p => (BValue.l p.1, p.2)) = _
          rw [← htl,
            show (x :: t).map jsonQuote = jsonQuote x :: t.map jsonQuote from rfl] at *
          rw [ih]
          rfl

/-- A rendered object member starts with the quote character. -/
theorem pairRender_head (p : String × BValue) (X : List Char) :
    ∃ tl, (jsonQuote p.1 ++ ':' :: renderBVal p.2) ++ X = dqChar :: tl :=
  ⟨(p.1.data.foldr (fun c acc => escapeChar c ++ acc) [dqChar] ++
      ':' :: renderBVal p.2) ++ X,
   by simp [jsonQuote, List.append_assoc]⟩

/-- A rendered object member is never empty. -/
theorem pairRender_ne_nil (p : String × BValue) :
    (jsonQuote p.1 ++ ':' :: renderBVal p.2) ≠ [] := by
  simp [jsonQuote]

/-- Parsing object members undoes the joined rendering of a nonempty
member list, with fuel at least the member count. -/
theorem parseJObjItems_round : ∀ (items : List (String × BValue)) (rest : List Char)
    (fuel : Nat), items.length ≤ fuel → items ≠ [] →
    parseJObjItems fuel
      (sepJoin ','
        (items.map (fun p => jsonQuote p.1 ++ ':' :: renderBVal p.2)) ++
        rbraceChar :: rest)
      = some (items, rest)
  | [], _, _, _, hne => absurd rfl hne
  | [(k, v)], rest, fuel, hf, _ => by
      match fuel, hf with
      | Nat.succ fuel, _ =>
        show parseJObjItems (fuel + 1)
            ((jsonQuote k ++ ':' :: renderBVal v) ++ rbraceChar :: rest) = _
        rw [List.append_assoc, List.cons_append]
        rw [parseJObjItems.eq_def]
        simp only [parseJStr_quote, Option.bind_eq_bind, Option.some_bind]
        rw [parseBVal_round v _ _
          (le_trans (bvalCount_le_render v) (by rw [List.length_append]; omega))]
        simp +decide
  | (k, v) :: p2 :: t, rest, fuel, hf, _ => by
      match fuel, hf with
      | Nat.succ fuel, hf =>
        have ih := parseJObjItems_round (p2 :: t) rest fuel (by simpa using hf) (by simp)
        have hsep : sepJoin ','
            (((k, v) :: p2 :: t).map (fun p => jsonQuote p.1 ++ ':' :: renderBVal p.2))
            = (jsonQuote k ++ ':' :: renderBVal v) ++ ',' ::
              sepJoin ',' ((p2 :: t).map (fun p => jsonQuote p.1 ++ ':' :: renderBVal p.2)) := by
          simp [sepJoin]
        rw [hsep, List.append_assoc, List.cons_append, List.append_assoc, List.cons_append]
        rw [parseJObjItems.eq_def]
        simp only [parseJStr_quote, Option.bind_eq_bind, Option.some_bind]
        rw [parseBVal_round v _ _
          (le_trans (bvalCount_le_render v) (by rw [List.length_append]; omega))]
        simp [Option.some_bind]
        simpa using ih

/-- Insertion sort is the identity on a strictly key-sorted list. -/
theorem pySortPairs_of_sorted : ∀ l : List (String × BValue),
    strictSortedKeys l = true → pySortPairs l = l
  | [], _ => rfl
  | [_], _ => rfl
  | p :: q :: t, h => by
      have hpq : pyStrLt p.1 q.1 = true ∧ strictSortedKeys (q :: t) = true := by
        simpa [strictSortedKeys, Bool.and_eq_true] using h
      have ih := pySortPairs_of_sorted (q :: t) hpq.2
      have e1 : pySortPairs (p :: q :: t) = insertSortedPair p (pySortPairs (q :: t)) := by
        rw [pySortPairs.eq_def]
      rw [e1, ih, insertSortedPair.eq_def]
      simp [hpq.1]

/-- Parsing the canonical JSON of a strictly key-sorted blob recovers the
blob. -/
theorem parseBlob_round (b : Blob) (hsorted : strictSortedKeys b.data = true) :
    parseBlob b.toJson = some b := by
  have hsort := pySortPairs_of_sorted b.data hsorted
  have hjson : b.toJson = ⟨lbraceChar ::
      (sepJoin ',' (b.data.map (fun p => jsonQuote p.1 ++ ':' :: renderBVal p.2)) ++
        [rbraceChar])⟩ := by
    rw [Blob.toJson, hsort]
    simp
  rw [parseBlob, hjson]
  have hstrip : pyStrip ⟨lbraceChar ::
      (sepJoin ',' (b.data.map (fun p => jsonQuote p.1 ++ ':' :: renderBVal p.2)) ++
        [rbraceChar])⟩ = ⟨lbraceChar ::
      (sepJoin ',' (b.data.map (fun p => jsonQuote p.1 ++ ':' :: renderBVal p.2)) ++
        [rbraceChar])⟩ :=
    pyStrip_noop lbraceChar _ rbraceChar (by decide) (by decide)
  rw [hstrip]
  cases hd : b.data with
  | nil =>
      show (parseBlobData [lbraceChar, rbraceChar]).map Blob.mk = some b
      show some (Blob.mk []) = some b
      rw [← hd]
  | cons p t =>
      have hne : (p :: t).map (fun p => jsonQuote p.1 ++ ':' :: renderBVal p.2) ≠ [] := by
        simp
      have hlen : ((p :: t).map
          (fun p => jsonQuote p.1 ++ ':' :: renderBVal p.2)).length
          ≤ (sepJoin ','
              ((p :: t).map (fun p => jsonQuote p.1 ++ ':' :: renderBVal p.2))).length :=
        length_le_sepJoin ',' _ (by
          intro a ha
          rw [List.mem_map] at ha
          obtain ⟨q, _, rfl⟩ := ha
          exact pairRender_ne_nil q)
      -- expose the head quote of the member join
      have hheadJ : ∃ tl, sepJoin ','
          ((p :: t).map (fun q => jsonQuote q.1 ++ ':' :: renderBVal q.2)) ++ [rbraceChar]
          = dqChar :: tl := by
        cases t with
        | nil =>
            obtain ⟨tl, htl⟩ := pairRender_head p [rbraceChar]
            exact ⟨tl, by simpa [sepJoin] using htl⟩
        | cons p2 t2 =>
            have hsep : sepJoin ','
                ((p :: p2 :: t2).map (fun q => jsonQuote q.1 ++ ':' :: renderBVal q.2))
                = (jsonQuote p.1 ++ ':' :: renderBVal p.2) ++ ',' ::
                  sepJoin ','
                    ((p2 :: t2).map (fun q => jsonQuote q.1 ++ ':' :: renderBVal q.2)) := by
              simp [sepJoin]
            obtain ⟨tl, htl⟩ := pairRender_head p (',' ::
              sepJoin ',' ((p2 :: t2).map (fun q => jsonQuote q.1 ++ ':' :: renderBVal q.2)))
            refine ⟨tl ++ [rbraceChar], ?_⟩
            rw [hsep, List.append_assoc, List.cons_append]
            rw [show (jsonQuote p.1 ++ ':' :: renderBVal p.2) ++ ',' ::
                (sepJoin ','
                  ((p2 :: t2).map (fun q => jsonQuote q.1 ++ ':' :: renderBVal q.2)) ++
                  [rbraceChar])
                = ((jsonQuote p.1 ++ ':' :: renderBVal p.2) ++ ',' ::
                  sepJoin ','
                    ((p2 :: t2).map (fun q => jsonQuote q.1 ++ ':' :: renderBVal q.2))) ++
                  [rbraceChar] from by simp [List.append_assoc]]
            rw [htl]
            rfl
      obtain ⟨tl, htl⟩ := hheadJ
      have hJlen : (sepJoin ','
          ((p :: t).map (fun q => jsonQuote q.1 ++ ':' :: renderBVal q.2))).length
          = tl.length := by
        have := congrArg List.length htl
        simpa using this
      have hobj2 := parseJObjItems_round (p :: t) [] ((lbraceChar :: dqChar :: tl).length)
        (by
          simp only [List.length_map] at hlen
          rw [hJlen] at hlen
          simp only [List.length_cons] at hlen ⊢
          omega)
        (by simp)
      rw [htl] at hobj2
      show (parseBlobData (lbraceChar ::
          (sepJoin ',' ((p :: t).map (fun q => jsonQuote q.1 ++ ':' :: renderBVal q.2)) ++
            [rbraceChar]))).map Blob.mk = some b
      rw [parseBlobData.eq_def, htl]
      simp only [List.length_cons]
      rw [show ((lbraceChar :: dqChar :: tl).length) = tl.length + 1 + 1 from by simp] at hobj2
      simp +decide only [if_pos, if_neg]
      rw [hobj2]
      rw [← hd]
      rfl

/-- Printable non-space characters are not Python whitespace. -/
theorem pyIsSpace_false_of (c : Char) (h1 : 33 ≤ c.toNat) (h2 : c.toNat ≤ 126) :
    pyIsSpace c = false := by
  have hn : ¬ pyIsSpace c = true := by
    simp only [pyIsSpace, Bool.or_eq_true, Bool.and_eq_true, decide_eq_true_eq]
    omega
  simpa using hn

/-- Printable characters are not line boundaries. -/
theorem isLineBoundary_false_of (c : Char) (h1 : 33 ≤ c.toNat) (h2 : c.toNat ≤ 126) :
    isLineBoundary c = false := by
  have hn : ¬ isLineBoundary c = true := by
    simp only [isLineBoundary, Bool.or_eq_true, decide_eq_true_eq]
    omega
  simpa using hn

/-- Characters differ when their code points do. -/
theorem char_ne_of_toNat (c d : Char) (h : c.toNat ≠ d.toNat) : c ≠ d :=
  fun he => h (he ▸ rfl)

/-- The numeric ranges behind `algCharOk`. -/
theorem algChar_toNat (c : Char) (h : algCharOk c = true) :
    ((97 ≤ c.toNat ∧ c.toNat ≤ 122) ∨ (48 ≤ c.toNat ∧ c.toNat ≤ 57)) ∨ c.toNat = 45 := by
  simpa [algCharOk, Bool.or_eq_true, Bool.and_eq_true, decide_eq_true_eq] using h

/-- The numeric ranges behind `hexCharOk`. -/
theorem hexChar_toNat (c : Char) (h : hexCharOk c = true) :
    (48 ≤ c.toNat ∧ c.toNat ≤ 57) ∨ (97 ≤ c.toNat ∧ c.toNat ≤ 102) := by
  simpa [hexCharOk, Bool.or_eq_true, Bool.and_eq_true, decide_eq_true_eq] using h

/-- `str.strip()` is the identity when neither end is whitespace. -/
theorem pyStrip_noop' (l : List Char) (hne : l ≠ [])
    (hh : pyIsSpace (l.headD ' ') = false)
    (hl : pyIsSpace (l.getLastD ' ') = false) : pyStrip ⟨l⟩ = ⟨l⟩ := by
  obtain ⟨c, rest, rfl⟩ := List.exists_cons_of_ne_nil hne
  rcases List.eq_nil_or_concat rest with rfl | ⟨mid, d, hcat⟩
  · simp only [List.headD_cons] at hh
    show String.mk (((([c].dropWhile pyIsSpace)).reverse.dropWhile pyIsSpace).reverse) = _
    rw [List.dropWhile_cons, hh]
    simp [List.dropWhile_cons, hh]
  · rw [List.concat_eq_append] at hcat
    subst hcat
    have hh' : pyIsSpace c = false := by simpa using hh
    have hl' : pyIsSpace d = false := by
      have he : (c :: (mid ++ [d])).getLastD ' ' = d := by
        rw [List.getLastD_cons, getLastD_concat_any]
      rwa [he] at hl
    exact pyStrip_noop c mid d hh' hl'

/-- `parse_hash` undoes the hash rendering for wire-format hashes. -/
theorem parseHash_round (h : Hash) (hok : hashWireOk h = true) :
    parseHash h.toStr = some h := by
  have hok' := hok
  simp only [hashWireOk, Bool.and_eq_true] at hok'
  obtain ⟨⟨⟨hane, halg⟩, hdne⟩, hdig⟩ := hok'
  have hAne : h.algorithm.data ≠ [] := by simpa using hane
  have hDne : h.digest.data ≠ [] := by simpa using hdne
  have halg' : ∀ c ∈ h.algorithm.data, algCharOk c = true := by
    simpa [List.all_eq_true] using halg
  have hdig' : ∀ c ∈ h.digest.data, hexCharOk c = true := by
    simpa [List.all_eq_true] using hdig
  have hdata : (h.toStr).data = h.algorithm.data ++ ':' :: h.digest.data := by
    show (h.algorithm ++ ":" ++ h.digest).data = _
    rw [strData_append, strData_append]
    simp
  have hstrip : pyStrip h.toStr = h.toStr := by
    have : h.toStr = ⟨h.algorithm.data ++ ':' :: h.digest.data⟩ := by
      rw [← hdata]
    rw [this]
    apply pyStrip_noop'
    · simp [hAne]
    · obtain ⟨a0, A, hA⟩ := List.exists_cons_of_ne_nil hAne
      have := algChar_toNat a0 (halg' a0 (by rw [hA]; simp))
      rw [hA]
      simp only [List.cons_append, List.headD_cons]
      exact pyIsSpace_false_of a0 (by omega) (by omega)
    · rcases List.eq_nil_or_concat h.digest.data with hnil | ⟨D, d0, hD⟩
      · exact absurd hnil hDne
      · rw [List.concat_eq_append] at hD
        have hmem : d0 ∈ h.digest.data := by rw [hD]; simp
        have := hexChar_toNat d0 (hdig' d0 hmem)
        rw [hD]
        rw [show h.algorithm.data ++ ':' :: (D ++ [d0])
            = (h.algorithm.data ++ ':' :: D) ++ [d0] from by simp]
        rw [getLastD_concat_any]
        exact pyIsSpace_false_of d0 (by omega) (by omega)
  rw [parseHash, hstrip, hdata]
  have hsplit : splitOnChar ':' (h.algorithm.data ++ ':' :: h.digest.data)
      = [h.algorithm.data, h.digest.data] := by
    rw [splitOnChar_append ':' _ _ (fun ch hc => by
      have := algChar_toNat ch (halg' ch hc)
      exact char_ne_of_toNat ch ':' (by
        rw [show (':' : Char).toNat = 58 from rfl]; omega))]
    rw [splitOnChar_sepFree ':' _ (fun ch hc => by
      have := hexChar_toNat ch (hdig' ch hc)
      exact char_ne_of_toNat ch ':' (by
        rw [show (':' : Char).toNat = 58 from rfl]; omega))]
  rw [hsplit]

/-- `Scope(scope.value)` recovers the scope. -/
theorem parseScope_value (s : Scope) : parseScope s.value = some s := by
  cases s <;> rfl

/-- The parts of a wire-format entry field. -/
theorem fieldOk_props (s : String) (h : fieldOk s = true) :
    ∀ c ∈ s.data, c ≠ '\t' ∧ isLineBoundary c = false := by
  intro c hc
  have := (List.all_eq_true.mp h) c hc
  simpa [Bool.and_eq_true] using this

/-- No character of a wire-format hash is a tab. -/
theorem hashStr_no_tab (h : Hash) (hok : hashWireOk h = true) :
    ∀ c ∈ (h.toStr).data, c ≠ '\t' := by
  have hok' := hok
  simp only [hashWireOk, Bool.and_eq_true] at hok'
  obtain ⟨⟨⟨_, halg⟩, _⟩, hdig⟩ := hok'
  have hdata : (h.toStr).data = h.algorithm.data ++ ':' :: h.digest.data := by
    show (h.algorithm ++ ":" ++ h.digest).data = _
    rw [strData_append, strData_append]
    simp
  rw [hdata]
  intro c hc
  rcases List.mem_append.mp hc with hmem | hmem
  · have := algChar_toNat c ((List.all_eq_true.mp halg) c hmem)
    exact char_ne_of_toNat c '\t' (by rw [show ('\t' : Char).toNat = 9 from rfl]; omega)
  · rcases List.mem_cons.mp hmem with rfl | hmem2
    · decide
    · have := hexChar_toNat c ((List.all_eq_true.mp hdig) c hmem2)
      exact char_ne_of_toNat c '\t' (by rw [show ('\t' : Char).toNat = 9 from rfl]; omega)

/-- `parse_entry` undoes the entry rendering for wire-format entries. -/
theorem parseEntry_round (e : Entry)
    (hk : fieldOk e.key = true) (ht : fieldOk e.timestamp = true)
    (hh : hashWireOk e.blob_hash = true) (hp : e.position = none) :
    parseEntry (e.scope.value ++ "\t" ++ e.key ++ "\t" ++ e.timestamp ++ "\t" ++
      e.blob_hash.toStr) = some e := by
  have hok' := hh
  simp only [hashWireOk, Bool.and_eq_true] at hok'
  obtain ⟨⟨⟨hane, halg⟩, hdne⟩, hdig⟩ := hok'
  have hDne : e.blob_hash.digest.data ≠ [] := by simpa using hdne
  have hdata : (e.scope.value ++ "\t" ++ e.key ++ "\t" ++ e.timestamp ++ "\t" ++
      e.blob_hash.toStr).data
      = e.scope.value.data ++ '\t' :: (e.key.data ++ '\t' :: (e.timestamp.data ++ '\t' ::
        (e.blob_hash.toStr).data)) := by
    simp only [strData_append]
    simp
  have hhdata : (e.blob_hash.toStr).data
      = e.blob_hash.algorithm.data ++ ':' :: e.blob_hash.digest.data := by
    show (e.blob_hash.algorithm ++ ":" ++ e.blob_hash.digest).data = _
    rw [strData_append, strData_append]
    simp
  have hstrip : pyStrip ⟨e.scope.value.data ++ '\t' :: (e.key.data ++ '\t' ::
      (e.timestamp.data ++ '\t' :: (e.blob_hash.toStr).data))⟩
      = ⟨e.scope.value.data ++ '\t' :: (e.key.data ++ '\t' ::
        (e.timestamp.data ++ '\t' :: (e.blob_hash.toStr).data))⟩ := by
    apply pyStrip_noop'
    · cases e.scope <;> simp [Scope.value]
    · cases e.scope <;> simp [Scope.value] <;> decide
    · rcases List.eq_nil_or_concat e.blob_hash.digest.data with hnil | ⟨D, d0, hD⟩
      · exact absurd hnil hDne
      · rw [List.concat_eq_append] at hD
        have hmem : d0 ∈ e.blob_hash.digest.data := by rw [hD]; simp
        have := hexChar_toNat d0 ((List.all_eq_true.mp hdig) d0 hmem)
        rw [hhdata, hD]
        rw [show e.scope.value.data ++ '\t' :: (e.key.data ++ '\t' ::
            (e.timestamp.data ++ '\t' ::
              (e.blob_hash.algorithm.data ++ ':' :: (D ++ [d0]))))
            = (e.scope.value.data ++ '\t' :: (e.key.data ++ '\t' ::
              (e.timestamp.data ++ '\t' ::
                (e.blob_hash.algorithm.data ++ ':' :: D)))) ++ [d0] from by simp]
        rw [getLastD_concat_any]
        exact pyIsSpace_false_of d0 (by omega) (by omega)
  have hscope_tabfree : ∀ c ∈ e.scope.value.data, c ≠ '\t' := by
    cases e.scope <;> decide
  have hsplit : splitOnChar '\t' (e.scope.value.data ++ '\t' :: (e.key.data ++ '\t' ::
      (e.timestamp.data ++ '\t' :: (e.blob_hash.toStr).data)))
      = [e.scope.value.data, e.key.data, e.timestamp.data, (e.blob_hash.toStr).data] := by
    rw [splitOnChar_append '\t' _ _ hscope_tabfree]
    rw [splitOnChar_append '\t' _ _ (fun c hc => (fieldOk_props e.key hk c hc).1)]
    rw [splitOnChar_append '\t' _ _ (fun c hc => (fieldOk_props e.timestamp ht c hc).1)]
    rw [splitOnChar_sepFree '\t' _ (hashStr_no_tab e.blob_hash hh)]
  have hstr : (e.scope.value ++ "\t" ++ e.key ++ "\t" ++ e.timestamp ++ "\t" ++
      e.blob_hash.toStr)
      = (⟨e.scope.value.data ++ '\t' :: (e.key.data ++ '\t' ::
        (e.timestamp.data ++ '\t' :: (e.blob_hash.toStr).data))⟩ : String) :=
    congrArg String.mk hdata
  rw [parseEntry, hstr, hstrip]
  rw [show (⟨e.scope.value.data ++ '\t' :: (e.key.data ++ '\t' ::
      (e.timestamp.data ++ '\t' :: (e.blob_hash.toStr).data))⟩ : String).data
      = e.scope.value.data ++ '\t' :: (e.key.data ++ '\t' ::
        (e.timestamp.data ++ '\t' :: (e.blob_hash.toStr).data)) from rfl]
  rw [hsplit]
  show Option.bind (parseScope e.scope.value) (fun scope =>
      Option.bind (parseHash e.blob_hash.toStr) (fun hash =>
        some ⟨e.key, scope, e.timestamp, hash, none⟩)) = some e
  rw [parseScope_value, parseHash_round e.blob_hash hh]
  show some (⟨e.key, e.scope, e.timestamp, e.blob_hash, none⟩ : Entry) = some e
  cases e
  simp_all

/-- `parse_command` undoes `Command.__repr__` for canonical commands. -/
theorem parseCommand_repr (c : Command) (hc : CanonicalCommand c = true) :
    parseCommand (reprCommand c) = .ok c := by
  cases c with
  | addItem b =>
      have hsorted : strictSortedKeys b.data = true := by
        have := hc
        simp only [CanonicalCommand, canonicalBlob, Bool.and_eq_true] at this
        exact this.1
      have hdata : (reprCommand (.addItem b)).data
          = "add-item".data ++ '\t' :: (b.toJson).data := by
        show ("add-item" ++ "\t" ++ b.toJson).data = _
        rw [strData_append, strData_append]
        simp
      rw [parseCommand, hdata]
      rw [splitFirstTab_of_no_tab _ _ (by decide)]
      show (if (⟨"add-item".data⟩ : String) = "add-item" then _ else _) = _
      rw [if_pos (show (⟨"add-item".data⟩ : String) = "add-item" from rfl)]
      rw [show (⟨(b.toJson).data⟩ : String) = b.toJson from rfl]
      rw [parseBlob_round b hsorted]
  | appendEntry e =>
      have hc' := hc
      simp only [CanonicalCommand, Bool.and_eq_true] at hc'
      obtain ⟨⟨⟨hk, ht⟩, hhash⟩, hpos⟩ := hc'
      have hp : e.position = none := by
        cases hpe : e.position
        · rfl
        · rw [hpe] at hpos; simp [Option.isNone] at hpos
      have hdata : (reprCommand (.appendEntry e)).data
          = "append-entry".data ++ '\t' :: (e.scope.value ++ "\t" ++ e.key ++ "\t" ++
            e.timestamp ++ "\t" ++ e.blob_hash.toStr).data := by
        show ("append-entry" ++ "\t" ++ e.scope.value ++ "\t" ++ e.key ++ "\t" ++
          e.timestamp ++ "\t" ++ e.blob_hash.toStr).data = _
        simp only [strData_append]
        simp
      rw [parseCommand, hdata]
      rw [splitFirstTab_of_no_tab _ _ (by decide)]
      show (if (⟨"append-entry".data⟩ : String) = "add-item" then _ else _) = _
      rw [if_neg (by decide)]
      show (if (⟨"append-entry".data⟩ : String) = "append-entry" then _ else _) = _
      rw [if_pos (show (⟨"append-entry".data⟩ : String) = "append-entry" from rfl)]
      rw [show (⟨(e.scope.value ++ "\t" ++ e.key ++ "\t" ++ e.timestamp ++ "\t" ++
        e.blob_hash.toStr).data⟩ : String)
          = e.scope.value ++ "\t" ++ e.key ++ "\t" ++ e.timestamp ++ "\t" ++
            e.blob_hash.toStr from rfl]
      rw [parseEntry_round e hk ht hhash hp]
  | assertRootHash h =>
      have hdata : (reprCommand (.assertRootHash h)).data
          = "assert-root-hash".data ++ '\t' :: (h.toStr).data := by
        show ("assert-root-hash" ++ "\t" ++ h.toStr).data = _
        rw [strData_append, strData_append]
        simp
      rw [parseCommand, hdata]
      rw [splitFirstTab_of_no_tab _ _ (by decide)]
      show (if (⟨"assert-root-hash".data⟩ : String) = "add-item" then _ else _) = _
      rw [if_neg (by decide)]
      show (if (⟨"assert-root-hash".data⟩ : String) = "append-entry" then _ else _) = _
      rw [if_neg (by decide)]
      show (if (⟨"assert-root-hash".data⟩ : String) = "assert-root-hash" then _ else _) = _
      rw [if_pos (show (⟨"assert-root-hash".data⟩ : String) = "assert-root-hash" from rfl)]
      rw [show (⟨(h.toStr).data⟩ : String) = h.toStr from rfl]
      rw [parseHash_round h hc]

/-- `noLB` distributes over append. -/
theorem noLB_append (a b : List Char) : noLB (a ++ b) = (noLB a && noLB b) := by
  simp [noLB, List.all_append]

/-- A character is no line boundary when its code point misses every
boundary code point. -/
theorem isLineBoundary_eq_false (c : Char)
    (h : c.toNat ≠ 10 ∧ c.toNat ≠ 11 ∧ c.toNat ≠ 12 ∧ c.toNat ≠ 13 ∧ c.toNat ≠ 28 ∧
      c.toNat ≠ 29 ∧ c.toNat ≠ 30 ∧ c.toNat ≠ 133 ∧ c.toNat ≠ 8232 ∧ c.toNat ≠ 8233) :
    isLineBoundary c = false := by
  have hn : ¬ isLineBoundary c = true := by
    simp only [isLineBoundary, Bool.or_eq_true, decide_eq_true_eq]
    omega
  simpa using hn

/-- Hex digits are not line boundaries. -/
theorem isLineBoundary_hexDigitChar (n : Nat) (h : n < 16) :
    isLineBoundary (hexDigitChar n) = false := by
  interval_cases n <;> decide

/-- The JSON escape of a character free of the three raw-passing boundary
characters contains no line boundary. -/
theorem noLB_escapeChar (c : Char)
    (h : ¬(c.toNat = 133 ∨ c.toNat = 8232 ∨ c.toNat = 8233)) :
    noLB (escapeChar c) = true := by
  push_neg at h
  obtain ⟨hx1, hx2, hx3⟩ := h
  rw [escapeChar]
  split_ifs with h1 h2 h3 h4 h5 h6 h7 h8
  · decide
  · decide
  · decide
  · decide
  · decide
  · decide
  · decide
  · rw [noLB, List.all_eq_true]
    intro x hx
    simp only [List.mem_cons, List.not_mem_nil, or_false] at hx
    rcases hx with rfl | rfl | rfl | rfl | rfl | rfl
    · decide
    · decide
    · decide
    · decide
    · simpa using isLineBoundary_hexDigitChar _ (by omega)
    · simpa using isLineBoundary_hexDigitChar _ (by omega)
  · rw [noLB]
    simp only [List.all_cons, List.all_nil, Bool.and_true, Bool.not_eq_true']
    exact isLineBoundary_eq_false c (by omega)

/-- Folding the escaper over exotic-free characters onto a boundary-free
accumulator stays boundary-free. -/
theorem noLB_escFold (i : List Char) (hi : noLB i = true) :
    ∀ l : List Char, (∀ c ∈ l, ¬(c.toNat = 133 ∨ c.toNat = 8232 ∨ c.toNat = 8233)) →
    noLB (l.foldr (fun c acc => escapeChar c ++ acc) i) = true
  | [], _ => hi
  | c :: t, h => by
      simp only [List.foldr_cons]
      rw [noLB_append, noLB_escapeChar c (h c (by simp)),
        noLB_escFold i hi t (fun x hx => h x (by simp [hx]))]
      rfl

/-- A quoted exotic-free string contains no line boundary. -/
theorem noLB_jsonQuote (s : String) (h : noExoticChar s = true) :
    noLB (jsonQuote s) = true := by
  have hmem : ∀ c ∈ s.data, ¬(c.toNat = 133 ∨ c.toNat = 8232 ∨ c.toNat = 8233) := by
    intro c hc
    have := (List.all_eq_true.mp h) c hc
    simp only [Bool.not_eq_true', Bool.or_eq_false_iff, decide_eq_false_iff_not] at this
    omega
  show noLB (dqChar :: s.data.foldr (fun c acc => escapeChar c ++ acc) [dqChar]) = true
  simp only [noLB, List.all_cons, Bool.and_eq_true]
  refine ⟨by decide, ?_⟩
  have := noLB_escFold [dqChar] (by decide) s.data hmem
  simpa [noLB] using this

/-- Joining boundary-free chunks with a boundary-free separator stays
boundary-free. -/
theorem noLB_sepJoin (sep : Char) (hsep : isLineBoundary sep = false) :
    ∀ ls : List (List Char), (∀ x ∈ ls, noLB x = true) →
    noLB (sepJoin sep ls) = true
  | [], _ => rfl
  | [x], h => by simpa [sepJoin] using h x (by simp)
  | x :: y :: t, h => by
      rw [show sepJoin sep (x :: y :: t) = x ++ sep :: sepJoin sep (y :: t) from rfl]
      rw [noLB_append, h x (by simp)]
      have h2 := noLB_sepJoin sep hsep (y :: t) (fun z hz => h z (by simp [hz]))
      simp only [noLB, List.all_cons, Bool.and_eq_true, Bool.true_and, Bool.not_eq_true']
      refine ⟨hsep, ?_⟩
      simpa [noLB] using h2

/-- The rendering of a canonical blob value contains no line boundary. -/
theorem noLB_renderBVal (v : BValue) (h : canonicalBVal v = true) :
    noLB (renderBVal v) = true := by
  cases v with
  | s v =>
      show noLB (jsonQuote v) = true
      exact noLB_jsonQuote v h
  | l vs =>
      show noLB ('[' :: (sepJoin ',' (vs.map jsonQuote) ++ [']'])) = true
      simp only [noLB, List.all_cons, List.all_append, List.all_nil, Bool.and_true,
        Bool.and_eq_true]
      refine ⟨by decide, ?_, by decide⟩
      have : noLB (sepJoin ',' (vs.map jsonQuote)) = true := by
        apply noLB_sepJoin ',' (by decide)
        intro x hx
        rw [List.mem_map] at hx
        obtain ⟨s2, hs2, rfl⟩ := hx
        exact noLB_jsonQuote s2 ((List.all_eq_true.mp h) s2 hs2)
      simpa [noLB] using this

/-- The canonical JSON of a canonical blob contains no line boundary. -/
theorem noLB_toJson (b : Blob) (h : canonicalBlob b = true) :
    noLB (b.toJson).data = true := by
  have h' := h
  simp only [canonicalBlob, Bool.and_eq_true] at h'
  obtain ⟨hsorted, hall⟩ := h'
  have hallp : ∀ p ∈ b.data, noExoticChar p.1 = true ∧ canonicalBVal p.2 = true := by
    intro p hp
    have := (List.all_eq_true.mp hall) p hp
    simpa [Bool.and_eq_true] using this
  show noLB (lbraceChar ::
    (sepJoin ',' ((pySortPairs b.data).map fun p => jsonQuote p.1 ++ ':' :: renderBVal p.2)
      ++ [rbraceChar])) = true
  rw [pySortPairs_of_sorted b.data hsorted]
  simp only [noLB, List.all_cons, List.all_append, List.all_nil, Bool.and_true,
    Bool.and_eq_true]
  refine ⟨by decide, ?_, by decide⟩
  have : noLB (sepJoin ',' (b.data.map fun p => jsonQuote p.1 ++ ':' :: renderBVal p.2))
      = true := by
    apply noLB_sepJoin ',' (by decide)
    intro x hx
    rw [List.mem_map] at hx
    obtain ⟨p, hp, rfl⟩ := hx
    rw [noLB_append, noLB_jsonQuote p.1 (hallp p hp).1]
    simp only [noLB, List.all_cons, Bool.and_eq_true, Bool.true_and, Bool.not_eq_true']
    refine ⟨by decide, ?_⟩
    simpa [noLB] using noLB_renderBVal p.2 (hallp p hp).2
  simpa [noLB] using this

/-- The wire form of a grammatical hash contains no line boundary. -/
theorem noLB_hashStr (h : Hash) (hok : hashWireOk h = true) :
    noLB (h.toStr).data = true := by
  have hok' := hok
  simp only [hashWireOk, Bool.and_eq_true] at hok'
  obtain ⟨⟨⟨_, halg⟩, _⟩, hdig⟩ := hok'
  have hdata : (h.toStr).data = h.algorithm.data ++ ':' :: h.digest.data := by
    show (h.algorithm ++ ":" ++ h.digest).data = _
    rw [strData_append, strData_append]
    simp
  rw [hdata, noLB_append]
  have h1 : noLB h.algorithm.data = true := by
    rw [noLB, List.all_eq_true]
    intro c hc
    have := algChar_toNat c ((List.all_eq_true.mp halg) c hc)
    simpa using isLineBoundary_false_of c (by omega) (by omega)
  have h2 : noLB h.digest.data = true := by
    rw [noLB, List.all_eq_true]
    intro c hc
    have := hexChar_toNat c ((List.all_eq_true.mp hdig) c hc)
    simpa using isLineBoundary_false_of c (by omega) (by omega)
  rw [h1]
  simp only [noLB, List.all_cons, Bool.and_eq_true, Bool.true_and, Bool.not_eq_true']
  refine ⟨by decide, ?_⟩
  simpa [noLB] using h2

/-- The wire line of a canonical command contains no line boundary. -/
theorem noLB_repr (c : Command) (hc : CanonicalCommand c = true) :
    noLB (reprCommand c).data = true := by
  cases c with
  | addItem b =>
      have hdata : (reprCommand (.addItem b)).data
          = "add-item".data ++ '\t' :: (b.toJson).data := by
        show ("add-item" ++ "\t" ++ b.toJson).data = _
        rw [strData_append, strData_append]
        simp
      rw [hdata, noLB_append, show noLB "add-item".data = true from by decide]
      simp only [Bool.true_and, noLB, List.all_cons, Bool.and_eq_true, Bool.not_eq_true']
      refine ⟨by decide, ?_⟩
      simpa [noLB] using noLB_toJson b hc
  | appendEntry e =>
      have hc' := hc
      simp only [CanonicalCommand, Bool.and_eq_true] at hc'
      obtain ⟨⟨⟨hk, ht⟩, hhash⟩, _⟩ := hc'
      have hdata : (reprCommand (.appendEntry e)).data
          = "append-entry".data ++ '\t' :: (e.scope.value.data ++ '\t' :: (e.key.data ++
            '\t' :: (e.timestamp.data ++ '\t' :: (e.blob_hash.toStr).data))) := by
        show ("append-entry" ++ "\t" ++ e.scope.value ++ "\t" ++ e.key ++ "\t" ++
          e.timestamp ++ "\t" ++ e.blob_hash.toStr).data = _
        simp only [strData_append]
        simp
      have hfieldK : noLB e.key.data = true := by
        rw [noLB, List.all_eq_true]
        intro x hx
        simpa using (fieldOk_props e.key hk x hx).2
      have hfieldT : noLB e.timestamp.data = true := by
        rw [noLB, List.all_eq_true]
        intro x hx
        simpa using (fieldOk_props e.timestamp ht x hx).2
      have hscope : noLB e.scope.value.data = true := by
        cases e.scope <;> decide
      rw [hdata, noLB_append, show noLB "append-entry".data = true from by decide]
      simp only [Bool.true_and, noLB, List.all_cons, List.all_append, Bool.and_eq_true,
        Bool.not_eq_true']
      refine ⟨by decide, ?_, by decide, ?_, by decide, ?_, by decide, ?_⟩
      · simpa [noLB] using hscope
      · simpa [noLB] using hfieldK
      · simpa [noLB] using hfieldT
      · simpa [noLB] using noLB_hashStr e.blob_hash hhash
  | assertRootHash h =>
      have hdata : (reprCommand (.assertRootHash h)).data
          = "assert-root-hash".data ++ '\t' :: (h.toStr).data := by
        show ("assert-root-hash" ++ "\t" ++ h.toStr).data = _
        rw [strData_append, strData_append]
        simp
      rw [hdata, noLB_append, show noLB "assert-root-hash".data = true from by decide]
      simp only [Bool.true_and, noLB, List.all_cons, Bool.and_eq_true, Bool.not_eq_true']
      refine ⟨by decide, ?_⟩
      simpa [noLB] using noLB_hashStr h hc

/-- Parsing the rendered lines of canonical commands recovers them. -/
theorem parseLines_repr : ∀ cmds : List Command,
    (∀ c ∈ cmds, CanonicalCommand c = true) →
    parseLines (cmds.map reprCommand) = .ok cmds
  | [], _ => rfl
  | c :: t, h => by
      have ih := parseLines_repr t (fun x hx => h x (List.mem_cons_of_mem c hx))
      rw [parseLines] at ih
      rw [List.map_cons, parseLines, List.mapM_cons,
        parseCommand_repr c (h c (List.mem_cons_self c t)), ih]
      rfl

/-- `rsf.load` of the dump of canonical commands recovers them. -/
theorem rsfLoad_dump (cmds : List Command) (hne : cmds ≠ [])
    (hcan : ∀ c ∈ cmds, CanonicalCommand c = true) :
    rsfLoad (dump cmds) = .ok cmds := by
  have hnl : ∀ L ∈ cmds.map (fun c => (reprCommand c).data), noLB L = true := by
    intro L hL
    rw [List.mem_map] at hL
    obtain ⟨c, hc, rfl⟩ := hL
    exact noLB_repr c (hcan c hc)
  have hne2 : cmds.map (fun c => (reprCommand c).data) ≠ [] := by simpa using hne
  have hlines : pySplitlines (dump cmds) = cmds.map reprCommand := by
    show splitlinesAux (dump cmds).data [] = _
    rw [show (dump cmds).data
        = sepJoin '\n' (cmds.map (fun c => (reprCommand c).data)) ++ ['\n'] from rfl]
    rw [pySplitlines_join _ hnl hne2, List.map_map]
    rfl
  rw [rsfLoad, hlines]
  exact parseLines_repr cmds hcan

/-- A concrete canonical command stream: an assert of the empty root, one
add-item, one append-entry. -/
def c7Cmds : List Command :=
  [Command.assertRootHash ⟨"sha-256",
    "e3b0c44298fc1c149afbf4c8996fb92427ae41e4649b934ca495991b7852b855"⟩,
   Command.addItem ⟨[("name", BValue.s "x")]⟩,
   Command.appendEntry ⟨"name", Scope.system, "2019-01-01T00:00:00Z",
     ⟨"sha-256", "abc123"⟩, none⟩]

/-- C7: for every well-formed RSF stream — the newline-joined,
newline-terminated rendering of wire-format commands with canonical blob
payloads — emitting the parsed command list reproduces the input exactly:
`dump (parse stream) = stream`. -/
theorem claimC7 (stream : String) (h : WellFormedRsf stream) :
    (rsfLoad stream).map dump = .ok stream := by
  obtain ⟨cmds, hne, hcan, rfl⟩ := h
  rw [rsfLoad_dump cmds hne hcan]
  rfl

/-- C7 witness: the round trip on a concrete three-command stream. -/
theorem claimC7_witness :
    (rsfLoad (dump c7Cmds)).map dump = .ok (dump c7Cmds) :=
  claimC7 (dump c7Cmds) ⟨c7Cmds, by decide, by decide, rfl⟩

/-- The period grammar as the claim words it: an ISO-8601 duration
`P[nY][nM][nD](T[nH][nM][nS])?` with bare `P` and trailing `T` forbidden,
or `part/part` where each part is a duration or a datetime. -/
def specDuration (v : String) : Bool :=
  periodCore v.data && v ≠ "P" && !endsWithT v

/-- A part of a period range per the claim: a duration or a datetime. -/
def specPeriodPart (v : String) : Bool :=
  datetimeCore v.data || specDuration v

/-- The claim's period grammar. -/
def specPeriodGrammar (v : String) : Bool :=
  specDuration v ||
    (match splitOnChar '/' v.data with
     | [a, b] => specPeriodPart ⟨a⟩ && specPeriodPart ⟨b⟩
     | _ => false)

/-- C8: the claim states that period validation raises
`InvalidPeriodValue` exactly when the string fails the period grammar and
that nothing outside the specified Value error set escapes.  On the input
`"2018/2019/2020"`, which fails the grammar, `validate_period` instead
raises a bare `ValueError`: `start, end = value.split("/")` unpacks a
three-element split. -/
theorem claimC8 :
    specPeriodGrammar "2018/2019/2020" = false ∧
    validateValuePeriod "2018/2019/2020" = .error .valueError ∧
    ValErr.valueError ≠ ValErr.invalidPeriodValue "2018/2019/2020" := by
  refine ⟨by decide, by decide, by decide⟩

/-- C9: the claim states that each specialized `InvalidValue` reports the
expected datatype tag in its `datatype` property and the offending token
in its `value` property.  The source assigns `self._datatype = value`, so
the `datatype` property of `InvalidPeriodValue("xyz")` is `"xyz"`, not
`"period"` (the spec itself flags this as the known bug). -/
theorem claimC9 :
    (invalidPeriodValue "xyz").datatype = "xyz" ∧
    (invalidPeriodValue "xyz").datatype ≠ "period" ∧
    (invalidPeriodValue "xyz").value = "xyz" := by
  refine ⟨rfl, by decide, rfl⟩

/-- C10: a scalar (non-list) value is serialised unchanged with no quoting
— even when it contains `;` — while quoting is applied only to the
elements of list values; consequently the scalar `"a;b"` round-trips
through a cardinality-many parse as the two values `a` and `b`. -/
theorem claimC10 :
    (∀ v : String, serialiseValue (.s v) = v) ∧
    (∀ vs : List String,
      serialiseValue (.l vs) = ⟨sepJoin ';' (vs.map (fun v => (quoteValue v).data))⟩) ∧
    serialiseValue (.s "a;b") = "a;b" ∧
    deserialiseValue (serialiseValue (.s "a;b")) .many = some (.l ["a", "b"]) ∧
    serialiseValue (.l ["a;b"]) = ⟨dqChar :: ('a' :: ';' :: 'b' :: []) ++ [dqChar]⟩ ∧
    deserialiseValue (serialiseValue (.l ["a;b"])) .many = some (.l ["a;b"]) := by
  refine ⟨fun v => rfl, fun vs => rfl, rfl, by decide, by decide, by decide⟩

end Registers
